import Mathlib

/-!
Polyscope shader routines and the surface texture quantity

A shallow embedding of

* `include/polyscope/render/opengl/shaders/common.h` (the GLSL routines in
  `shaderCommonSource`), and
* `include/polyscope/surface_texture_quantity.h` (`SurfaceTextureQuantity`).

GLSL `float` is read as an exact number.  The routines that use only field
operations and comparisons are written over an arbitrary linearly ordered field
`K` (so they run on `ℚ`); the ones that need `sqrt`, `pow`, `asin` or `atan`
are written over `ℝ`.

GLSL leaves the result of some operations undefined: `a / b` with `b = 0`,
`sqrt(x)` with `x < 0`, `pow(x, y)` with `x < 0` or with `x = 0` and `y <= 0`,
`asin(x)` with `|x| > 1`.  Every such operation returns an `Option`, with `none`
standing for "undefined", and a routine is `none` as soon as one of the operations
its result depends on is.

The program itself computes in IEEE 754 binary32.  Where rounding changes a result
in kind (another branch, a NaN, a hit point at the centre of the sphere) the routine
is given a second time in that arithmetic, under the name of the routine followed by
`F32`; the statements about the exact routines say "over the reals".
-/

namespace Polyscope

/-! ## GLSL vectors and matrices -/

/-- The GLSL type `vec2`. -/
@[ext] structure Vec2 (K : Type) where
  x : K
  y : K
deriving DecidableEq, Repr

/-- The GLSL type `vec3`. -/
@[ext] structure Vec3 (K : Type) where
  x : K
  y : K
  z : K
deriving DecidableEq, Repr

/-- The GLSL type `vec4`. -/
@[ext] structure Vec4 (K : Type) where
  x : K
  y : K
  z : K
  w : K
deriving DecidableEq, Repr

/-- The GLSL type `mat4`; entry `M i j` is row `i`, column `j`. -/
abbrev Mat4 (K : Type) := Matrix (Fin 4) (Fin 4) K

section Algebra

variable {K : Type} [LinearOrderedField K]

/-- The constructor `vec3(a)`: all three components equal to `a`. -/
def Vec3.splat (a : K) : Vec3 K := ⟨a, a, a⟩

/-- The constructor `vec4(v, w)` from a `vec3` and a scalar. -/
def Vec4.ofVec3 (v : Vec3 K) (w : K) : Vec4 K := ⟨v.x, v.y, v.z, w⟩

/-- The swizzle `.xyz`. -/
def Vec4.xyz (v : Vec4 K) : Vec3 K := ⟨v.x, v.y, v.z⟩

/-- Componentwise `a + b` on `vec3`. -/
def Vec3.add (a b : Vec3 K) : Vec3 K := ⟨a.x + b.x, a.y + b.y, a.z + b.z⟩

/-- Componentwise `a - b` on `vec3`. -/
def Vec3.sub (a b : Vec3 K) : Vec3 K := ⟨a.x - b.x, a.y - b.y, a.z - b.z⟩

/-- The product `t * v` of a scalar and a `vec3`. -/
def Vec3.smul (t : K) (v : Vec3 K) : Vec3 K := ⟨t * v.x, t * v.y, t * v.z⟩

/-- GLSL `dot` on `vec3`. -/
def dot (a b : Vec3 K) : K := a.x * b.x + a.y * b.y + a.z * b.z

/-- GLSL `step(edge, x)`: `0.0` if `x < edge`, otherwise `1.0`. -/
def step (edge x : K) : K := if x < edge then 0 else 1

/-- GLSL `mix(x, y, a)`: the linear blend `x * (1 - a) + y * a`. -/
def mix (x y a : K) : K := x * (1 - a) + y * a

/-- GLSL `a / b` on scalars; undefined when the divisor is zero. -/
def fdiv (a b : K) : Option K := if b = 0 then none else some (a / b)

/-- GLSL `v / s` for a `vec3` and a scalar: every component is divided by `s`. -/
def Vec3.divScalar (v : Vec3 K) (s : K) : Option (Vec3 K) := do
  let x ← fdiv v.x s
  let y ← fdiv v.y s
  let z ← fdiv v.z s
  pure ⟨x, y, z⟩

/-- GLSL `v / s` for a `vec4` and a scalar: every component is divided by `s`. -/
def Vec4.divScalar (v : Vec4 K) (s : K) : Option (Vec4 K) := do
  let x ← fdiv v.x s
  let y ← fdiv v.y s
  let z ← fdiv v.z s
  let w ← fdiv v.w s
  pure ⟨x, y, z, w⟩

/-- GLSL `M * v` for a `mat4` and a `vec4`: the matrix-vector product. -/
def Mat4.mulVec4 (M : Mat4 K) (v : Vec4 K) : Vec4 K :=
  ⟨M 0 0 * v.x + M 0 1 * v.y + M 0 2 * v.z + M 0 3 * v.w,
   M 1 0 * v.x + M 1 1 * v.y + M 1 2 * v.z + M 1 3 * v.w,
   M 2 0 * v.x + M 2 1 * v.y + M 2 2 * v.z + M 2 3 * v.w,
   M 3 0 * v.x + M 3 1 * v.y + M 3 2 * v.z + M 3 3 * v.w⟩

end Algebra

/-! ## GLSL built-ins over the reals -/

noncomputable section RealBuiltins

/-- GLSL `length` on `vec3`; defined for every vector since `dot(v, v) >= 0`. -/
def length (v : Vec3 ℝ) : ℝ := Real.sqrt (dot v v)

/-- GLSL `normalize`: `v / length(v)`, undefined for the zero vector. -/
def normalize (v : Vec3 ℝ) : Option (Vec3 ℝ) := Vec3.divScalar v (length v)

/-- GLSL `sqrt`; undefined for a negative argument. -/
def glslSqrt (x : ℝ) : Option ℝ := if x < 0 then none else some (Real.sqrt x)

/-- GLSL `pow(x, y)`; undefined if `x < 0`, and if `x = 0` and `y <= 0`. -/
def glslPow (x y : ℝ) : Option ℝ :=
  if x < 0 ∨ (x = 0 ∧ y ≤ 0) then none else some (x ^ y)

/-- GLSL `pow` on `vec3`, componentwise. -/
def glslPow3 (a b : Vec3 ℝ) : Option (Vec3 ℝ) := do
  let x ← glslPow a.x b.x
  let y ← glslPow a.y b.y
  let z ← glslPow a.z b.z
  pure ⟨x, y, z⟩

/-! ## `gammaCorrect` / `undoGammaCorrect` (common.h, lines 66-76) -/

/-- The local constant `screenGamma = 2.2` of both routines. -/
def screenGamma : ℝ := 2.2

/-- The routine `gammaCorrect`: `pow(colorLinear, vec3(1.0/screenGamma))`. -/
def gammaCorrect (colorLinear : Vec3 ℝ) : Option (Vec3 ℝ) :=
  glslPow3 colorLinear (Vec3.splat (1.0 / screenGamma))

/-- The routine `undoGammaCorrect`: `pow(colorLinear, vec3(screenGamma))`. -/
def undoGammaCorrect (colorLinear : Vec3 ℝ) : Option (Vec3 ℝ) :=
  glslPow3 colorLinear (Vec3.splat screenGamma)

end RealBuiltins

/-! ## `orenNayarDiffuse` (common.h, lines 28-47) -/

section FieldRoutines

variable {K : Type} [LinearOrderedField K]

/-- The routine `orenNayarDiffuse`.  The four quotients of the source are taken in
the order in which GLSL evaluates them; `B * s / t` is `(B * s) / t`. -/
def orenNayarDiffuse (lightDirection viewDirection surfaceNormal : Vec3 K)
    (roughness albedo : K) : Option K := do
  let LdotV := dot lightDirection viewDirection
  let NdotL := dot lightDirection surfaceNormal
  let NdotV := dot surfaceNormal viewDirection
  let s := LdotV - NdotL * NdotV
  let t := mix 1 (max NdotL NdotV) (step 0 s)
  let sigma2 := roughness * roughness
  let q1 ← fdiv albedo (sigma2 + 0.13)
  let q2 ← fdiv 0.5 (sigma2 + 0.33)
  let A := 1 + sigma2 * (q1 + q2)
  let B ← fdiv (0.45 * sigma2) (sigma2 + 0.09)
  let q3 ← fdiv (B * s) t
  fdiv (albedo * max 0 NdotL * (A + q3)) 3.14159

/-- The value `t` that `orenNayarDiffuse` divides by:
`mix(1.0, max(NdotL, NdotV), step(0.0, s))` with `s = LdotV - NdotL * NdotV`. -/
def orenNayarT (lightDirection viewDirection surfaceNormal : Vec3 K) : K :=
  mix 1 (max (dot lightDirection surfaceNormal) (dot surfaceNormal viewDirection))
    (step 0 (dot lightDirection viewDirection -
      dot lightDirection surfaceNormal * dot surfaceNormal viewDirection))

/-! ## `fragmentViewPosition` / `fragDepthFromView` (common.h, lines 107-123) -/

/-- The routine `fragmentViewPosition`. -/
def fragmentViewPosition (viewport : Vec4 K) (depthRange : Vec2 K) (invProjMat : Mat4 K)
    (fragCoord : Vec4 K) : Option (Vec3 K) := do
  let ndcX ← fdiv ((2 * fragCoord.x) - (2 * viewport.x)) viewport.z
  let ndcY ← fdiv ((2 * fragCoord.y) - (2 * viewport.y)) viewport.w
  let ndcZ ← fdiv (2 * fragCoord.z - depthRange.x - depthRange.y) (depthRange.y - depthRange.x)
  let ndcPos : Vec4 K := ⟨ndcX - 1, ndcY - 1, ndcZ, 1⟩
  let clipPos ← Vec4.divScalar ndcPos fragCoord.w
  let eyePos := Mat4.mulVec4 invProjMat clipPos
  Vec3.divScalar eyePos.xyz eyePos.w

/-- The routine `fragDepthFromView`. -/
def fragDepthFromView (projMat : Mat4 K) (depthRange : Vec2 K) (viewPoint : Vec3 K) :
    Option K := do
  let clipPos := Mat4.mulVec4 projMat (Vec4.ofVec3 viewPoint 1)
  let z_ndc ← fdiv clipPos.z clipPos.w
  let depth ← fdiv (((depthRange.y - depthRange.x) * z_ndc) + depthRange.x + depthRange.y) 2
  pure depth

end FieldRoutines

noncomputable section RealRoutines

/-! ## `raySphereIntersection` (common.h, lines 125-141) -/

/-- The three `out` parameters of `raySphereIntersection`.  `nHit` is computed by a
`normalize` of its own, which can be undefined while `tHit` and `pHit` are not. -/
@[ext] structure RayHit where
  tHit : ℝ
  pHit : Vec3 ℝ
  nHit : Option (Vec3 ℝ)

/-- The routine `raySphereIntersection` in exact arithmetic over the reals; the result
is undefined when `normalize(rayDir)` is.  The same routine in the binary32 arithmetic
of the program is `raySphereIntersectionF32`. -/
def raySphereIntersection (rayStart rayDir sphereCenter : Vec3 ℝ) (sphereRad : ℝ) :
    Option RayHit := do
  let rayDir ← normalize rayDir
  let o := rayStart.sub sphereCenter
  let a := dot rayDir rayDir
  let b := 2 * dot o rayDir
  let c := dot o o - sphereRad * sphereRad
  let disc := b * b - 4 * a * c
  if disc < 0 then
    pure ⟨-1, ⟨777, 777, 777⟩, some ⟨777, 777, 777⟩⟩
  else do
    let root ← glslSqrt disc
    let tHit ← fdiv (-b - root) (2 * a)
    let pHit := rayStart.add (Vec3.smul tHit rayDir)
    pure ⟨tHit, pHit, normalize (pHit.sub sphereCenter)⟩

/-- The local `b = 2.0 * dot(o, rayDir)` of `raySphereIntersection`, as a function of
the inputs and the already normalized `rayDir`. -/
def rayB (rayStart rayDir sphereCenter : Vec3 ℝ) : ℝ :=
  2 * dot (rayStart.sub sphereCenter) rayDir

/-- The local `c = dot(o, o) - sphereRad*sphereRad` of `raySphereIntersection`. -/
def rayC (rayStart sphereCenter : Vec3 ℝ) (sphereRad : ℝ) : ℝ :=
  dot (rayStart.sub sphereCenter) (rayStart.sub sphereCenter) - sphereRad * sphereRad

/-- The local `disc = b*b - 4*a*c` of `raySphereIntersection`, with
`a = dot(rayDir, rayDir)`, for the already normalized `rayDir`. -/
def rayDisc (rayStart rayDir sphereCenter : Vec3 ℝ) (sphereRad : ℝ) : ℝ :=
  rayB rayStart rayDir sphereCenter * rayB rayStart rayDir sphereCenter -
    4 * dot rayDir rayDir * rayC rayStart sphereCenter sphereRad

/-- The value the hit branch assigns to `tHit`: `(-b - sqrt(disc)) / (2.0*a)`, for an
already normalized `rayDir`. -/
def rayT (rayStart rayDir sphereCenter : Vec3 ℝ) (sphereRad : ℝ) : ℝ :=
  (-rayB rayStart rayDir sphereCenter -
    Real.sqrt (rayDisc rayStart rayDir sphereCenter sphereRad)) / (2 * dot rayDir rayDir)

/-- The outputs of the miss branch: `tHit = -1.`, `pHit = nHit = vec3(777, 777, 777)`. -/
def sentinelHit : RayHit := ⟨-1, ⟨777, 777, 777⟩, some ⟨777, 777, 777⟩⟩

/-- The point `q` lies on the half-line `rayStart + t * rayDir`, `t >= 0`. -/
def OnRay (rayStart rayDir q : Vec3 ℝ) : Prop :=
  ∃ t : ℝ, 0 ≤ t ∧ q = rayStart.add (Vec3.smul t rayDir)

/-- The point `q` lies on the sphere of the given centre and radius. -/
def OnSphere (sphereCenter : Vec3 ℝ) (sphereRad : ℝ) (q : Vec3 ℝ) : Prop :=
  length (q.sub sphereCenter) ^ 2 = sphereRad ^ 2

/-- The number `dist` is the Euclidean distance from `rayStart` to the nearest point
in which the half-line from `rayStart` along `rayDir` meets the sphere. -/
def IsNearestHitDistance (rayStart rayDir sphereCenter : Vec3 ℝ) (sphereRad dist : ℝ) : Prop :=
  ∃ q : Vec3 ℝ, OnRay rayStart rayDir q ∧ OnSphere sphereCenter sphereRad q ∧
    dist = length (q.sub rayStart) ∧
    ∀ q' : Vec3 ℝ, OnRay rayStart rayDir q' → OnSphere sphereCenter sphereRad q' →
      length (q.sub rayStart) ≤ length (q'.sub rayStart)

/-! ## `sphericalTexCoords` (common.h, lines 95-101) -/

/-- GLSL `asin`; undefined when `|x| > 1`. -/
def glslAsin (x : ℝ) : Option ℝ := if x < -1 ∨ 1 < x then none else some (Real.arcsin x)

/-- GLSL two-argument `atan(y, x)`: the angle of the point `(x, y)`, in `[-π, π]`.
At `x = y = 0`, where GLSL leaves the result to the implementation, the value is `0`,
as with C's `atan2`.  A real number has no sign of zero, so `atan(-0.0, x)` with
`x < 0`, which is `-π` in binary32, is `π` here. -/
def glslAtan2 (y x : ℝ) : ℝ := Complex.arg ⟨x, y⟩

/-- The routine `sphericalTexCoords`. -/
def sphericalTexCoords (v : Vec3 ℝ) : Option (Vec2 ℝ) := do
  let invMap : Vec2 ℝ := ⟨0.1591, 0.3183⟩
  let a := glslAtan2 v.z v.x
  let b ← glslAsin v.y
  let uv : Vec2 ℝ := ⟨a, b⟩
  let uv : Vec2 ℝ := ⟨uv.x * invMap.x, uv.y * invMap.y⟩
  let uv : Vec2 ℝ := ⟨uv.x + 0.5, uv.y + 0.5⟩
  pure uv

end RealRoutines

/-! ## `SurfaceTextureQuantity` (surface_texture_quantity.h) -/

/-- An entry of a `std::vector<glm::vec2>`. -/
abbrev UV := Vec2 ℚ

/-- What is kept of a `render::ShaderProgram`: the per-vertex UV data that was bound
to it when it was built. -/
structure ShaderProgram where
  uvs : List UV
deriving DecidableEq, Repr

/-- The state of a `SurfaceTextureQuantity`: the members `uvs` and `program` (a null
`shared_ptr` is `none`), and the vertex count of the parent mesh it was constructed
with. -/
structure SurfaceTextureQuantity where
  nVertices : Nat
  uvs : List UV
  program : Option ShaderProgram
deriving DecidableEq, Repr

/-- The quantity together with what its member functions do to the rest of the
process: how many times `createProgram()` has been called, and whether
`requestRedraw()` has been called. -/
structure Scene where
  quantity : SurfaceTextureQuantity
  createProgramCalls : Nat
  redrawRequested : Bool
deriving DecidableEq, Repr

/-- The errors the specification lets the quantity signal. -/
inductive Failure where
  | sizeMismatch
  | shaderCompilation
deriving DecidableEq, Repr

/-- The member template `setUVs` (lines 25-30).  Its two callees are not defined in
the given sources and are parameters: `stdArr` is `standardizeVectorArray<glm::vec2, 2>`,
which receives the argument `uvs_` only, and `build` is the member `createProgram`,
which acts on the quantity; either may throw.  The result is the exception that leaves
`setUVs`, if any, and the state afterwards; a normal return is `return this`.

* `uvs = standardizeVectorArray<glm::vec2, 2>(uvs_);` - if the right-hand side throws,
  nothing has been assigned;
* `createProgram();` - runs on the quantity that already holds the new `uvs`;
* `requestRedraw();`. -/
def setUVs {α ε : Type} (stdArr : α → Except ε (List UV))
    (build : SurfaceTextureQuantity → Option ε × SurfaceTextureQuantity)
    (s : Scene) (uvs_ : α) : Option ε × Scene :=
  match stdArr uvs_ with
  | .error e => (some e, s)
  | .ok v =>
    match build { s.quantity with uvs := v } with
    | (some e, q) =>
      (some e, { s with quantity := q, createProgramCalls := s.createProgramCalls + 1 })
    | (none, q) =>
      (none, { quantity := q, createProgramCalls := s.createProgramCalls + 1,
               redrawRequested := true })

/-- Modelled from the spec: `standardizeVectorArray` is declared outside the given
sources.  It turns the array-like argument into the `std::vector<glm::vec2>` that is
stored ("the standardized new data"); its only argument is the array.  It is modelled
as the conversion that keeps the entries and never throws. -/
def standardizeVectorArray (uvs_ : List UV) : Except Failure (List UV) := .ok uvs_

/-- Modelled from the spec: `createProgram` is declared in the header and defined
outside the given sources.  "Program build: concatenate the shader math library source
with quantity-specific vertex/fragment source, compile, and bind vertex/attribute
layout matching current data": the program is replaced by one built from the current
`uvs`, and the data is left as it is. -/
def createProgram (q : SurfaceTextureQuantity) : Option Failure × SurfaceTextureQuantity :=
  (none, { q with program := some ⟨q.uvs⟩ })

/-- Modelled from the spec: `refresh` is declared in the header (line 23) and defined
outside the given sources.  "`refresh()`: forces invalidation (marks program stale)
without changing data".  The class has no member besides `program` in which to record
staleness, so a stale program is the null `program`. -/
def refresh (s : Scene) : Scene :=
  { s with quantity := { s.quantity with program := none } }

/-- Modelled from the spec: `draw` is declared in the header (line 20) and defined
outside the given sources.  "`Stale→Built` occurs synchronously at the start of the
next `draw()`", then "set per-frame uniforms ... then issue the draw call": a null
`program` is rebuilt by `createProgram()` first, and the draw call is issued with the
program the quantity then holds.  The result is that program and the state
afterwards. -/
def draw (s : Scene) : Option ShaderProgram × Scene :=
  match s.quantity.program with
  | some prog => (some prog, s)
  | none =>
    ((createProgram s.quantity).2.program,
      { s with quantity := (createProgram s.quantity).2,
               createProgramCalls := s.createProgramCalls + 1 })

/-! ## `fresnel` (common.h, lines 55-59) -/

noncomputable section Fresnel

end Fresnel

/-! ## The local `eyePos` of `fragmentViewPosition` -/

/-- The local `eyePos` of `fragmentViewPosition` (lines 108-114): the routine up to
its last line, which returns `eyePos.xyz / eyePos.w`. -/
def fragmentEyePos {K : Type} [LinearOrderedField K] (viewport : Vec4 K) (depthRange : Vec2 K)
    (invProjMat : Mat4 K) (fragCoord : Vec4 K) : Option (Vec4 K) := do
  let ndcX ← fdiv ((2 * fragCoord.x) - (2 * viewport.x)) viewport.z
  let ndcY ← fdiv ((2 * fragCoord.y) - (2 * viewport.y)) viewport.w
  let ndcZ ← fdiv (2 * fragCoord.z - depthRange.x - depthRange.y) (depthRange.y - depthRange.x)
  let ndcPos : Vec4 K := ⟨ndcX - 1, ndcY - 1, ndcZ, 1⟩
  let clipPos ← Vec4.divScalar ndcPos fragCoord.w
  pure (Mat4.mulVec4 invProjMat clipPos)

/-! ## IEEE 754 binary32, the arithmetic the shader runs in

The routines above read `float` as an exact number.  The program computes in
binary32: every operation returns the representable value nearest to the exact
result (ties to even), with signed zeros, infinities and NaN.  This section gives
that arithmetic and, in it, the routines whose results differ in kind from the
exact ones (another branch, a NaN) and not only in the last digits. -/

/-- A binary32 value: NaN, an infinity, a signed zero, or a non-zero finite value. -/
inductive F32 where
  | nan : F32
  | inf (neg : Bool) : F32
  | zero (neg : Bool) : F32
  | num (q : ℚ) : F32
deriving DecidableEq, Repr

namespace F32

/-- The rational `2 ^ k` for an integer `k`. -/
def pow2 (k : ℤ) : ℚ :=
  if 0 ≤ k then ((2 ^ k.toNat : ℕ) : ℚ) else 1 / ((2 ^ (-k).toNat : ℕ) : ℚ)

/-- The number of halvings that take `n` below `2`, with at most `fuel` steps. -/
def log2Aux : ℕ → ℕ → ℕ
  | 0, _ => 0
  | fuel + 1, n => if 2 ≤ n then log2Aux fuel (n / 2) + 1 else 0

/-- For `n > 0`, the natural number `k` with `2 ^ k ≤ n < 2 ^ (k + 1)`. -/
def log2 (n : ℕ) : ℕ := log2Aux n n

/-- For `a > 0`, the integer `e` with `2 ^ e ≤ a < 2 ^ (e + 1)`. -/
def floorLog2 (a : ℚ) : ℤ :=
  let k : ℤ := (log2 a.num.natAbs : ℤ) - (log2 a.den : ℤ)
  if pow2 k ≤ a then k else k - 1

/-- For `a > 0`, the multiple of the binary32 quantum at `a` that is nearest to `a`,
ties to the even multiple.  The quantum is `2 ^ (e - 23)` in the binade
`[2 ^ e, 2 ^ (e + 1))`, and `2 ^ (-149)` in the subnormal range. -/
def roundMag (a : ℚ) : ℚ :=
  let qe := max (floorLog2 a - 23) (-149)
  let sc := a / pow2 qe
  let m := sc.floor
  let r := sc - m
  let m' := if 1 / 2 < r ∨ (r = 1 / 2 ∧ m % 2 = 1) then m + 1 else m
  m' * pow2 qe

/-- Rounding of an exact result to binary32; an exact zero is `+0`. -/
def round (q : ℚ) : F32 :=
  if q = 0 then zero false
  else
    let v := roundMag (if q < 0 then -q else q)
    if v = 0 then zero (decide (q < 0))
    else if pow2 128 ≤ v then inf (decide (q < 0))
    else num (if q < 0 then -v else v)

/-- A literal of the source, such as `2.0` or `777`: the nearest binary32 value. -/
def ofRat (q : ℚ) : F32 := round q

/-- The sign bit; `false` for NaN. -/
def signBit : F32 → Bool
  | nan => false
  | inf s => s
  | zero s => s
  | num q => decide (q < 0)

/-- Unary minus. -/
def neg : F32 → F32
  | nan => nan
  | inf s => inf (!s)
  | zero s => zero (!s)
  | num q => num (-q)

/-- Addition. -/
def add : F32 → F32 → F32
  | nan, _ => nan
  | _, nan => nan
  | inf s, inf t => if s = t then inf s else nan
  | inf s, _ => inf s
  | _, inf t => inf t
  | zero s, zero t => zero (s && t)
  | zero _, num q => num q
  | num p, zero _ => num p
  | num p, num q => round (p + q)

/-- Subtraction, `a + (-b)`. -/
def sub (a b : F32) : F32 := add a (neg b)

/-- Multiplication. -/
def mul : F32 → F32 → F32
  | nan, _ => nan
  | _, nan => nan
  | inf _, zero _ => nan
  | zero _, inf _ => nan
  | inf s, b => inf (xor s b.signBit)
  | a, inf t => inf (xor a.signBit t)
  | zero s, b => zero (xor s b.signBit)
  | a, zero t => zero (xor a.signBit t)
  | num p, num q => round (p * q)

/-- Division; `0 / 0` and `inf / inf` are NaN, a non-zero value over zero is an
infinity. -/
def div : F32 → F32 → F32
  | nan, _ => nan
  | _, nan => nan
  | inf _, inf _ => nan
  | zero _, zero _ => nan
  | inf s, b => inf (xor s b.signBit)
  | a, inf t => zero (xor a.signBit t)
  | zero s, num q => zero (xor s (decide (q < 0)))
  | num p, zero t => inf (xor (decide (p < 0)) t)
  | num p, num q => round (p / q)

/-- Newton's iteration for the integer square root, from a start `x ≥ √n`. -/
def isqrtAux (n : ℕ) : ℕ → ℕ → ℕ
  | 0, x => x
  | fuel + 1, x =>
    let y := (x + n / x) / 2
    if y < x then isqrtAux n fuel y else x

/-- The integer square root `⌊√n⌋`. -/
def isqrt (n : ℕ) : ℕ := if n = 0 then 0 else isqrtAux n n n

/-- For `a > 0`, the binary32 value nearest to `√a`. -/
def sqrtMag (a : ℚ) : ℚ :=
  let qe := Int.fdiv (floorLog2 a) 2 - 23
  let s := a / pow2 (2 * qe)
  let m := isqrt s.floor.toNat
  let h := ((m : ℚ) + 1 / 2) ^ 2
  let m' := if h < s ∨ (h = s ∧ m % 2 = 1) then m + 1 else m
  (m' : ℚ) * pow2 qe

/-- The function `sqrt`; NaN for a negative argument. -/
def sqrt : F32 → F32
  | nan => nan
  | inf s => if s then nan else inf false
  | zero s => zero s
  | num q => if q < 0 then nan else num (sqrtMag q)

/-- The comparison `a < b`; false when either side is NaN, and `-0 < +0` is false. -/
def lt : F32 → F32 → Bool
  | nan, _ => false
  | _, nan => false
  | inf s, inf t => s && !t
  | inf s, _ => s
  | _, inf t => !t
  | zero _, zero _ => false
  | zero _, num q => decide (0 < q)
  | num p, zero _ => decide (p < 0)
  | num p, num q => decide (p < q)

/-- GLSL `max(x, y)`: `y` if `x < y`, otherwise `x`. -/
def max (x y : F32) : F32 := if lt x y then y else x

end F32

/-- GLSL `dot` on `vec3` in binary32, the products summed from left to right. -/
def dotF32 (a b : Vec3 F32) : F32 :=
  F32.add (F32.add (F32.mul a.x b.x) (F32.mul a.y b.y)) (F32.mul a.z b.z)

/-- GLSL `length` on `vec3` in binary32. -/
def lengthF32 (v : Vec3 F32) : F32 := F32.sqrt (dotF32 v v)

/-- GLSL `normalize` in binary32: `v / length(v)`. -/
def normalizeF32 (v : Vec3 F32) : Vec3 F32 :=
  ⟨F32.div v.x (lengthF32 v), F32.div v.y (lengthF32 v), F32.div v.z (lengthF32 v)⟩

/-- Componentwise `a - b` in binary32. -/
def subF32 (a b : Vec3 F32) : Vec3 F32 := ⟨F32.sub a.x b.x, F32.sub a.y b.y, F32.sub a.z b.z⟩

/-- The three `out` parameters of `raySphereIntersection` in binary32. -/
structure RayHitF32 where
  tHit : F32
  pHit : Vec3 F32
  nHit : Vec3 F32
deriving DecidableEq, Repr

/-- The routine `raySphereIntersection` (common.h, lines 125-141) in binary32. -/
def raySphereIntersectionF32 (rayStart rayDir sphereCenter : Vec3 F32) (sphereRad : F32) :
    RayHitF32 :=
  let rayDir := normalizeF32 rayDir
  let o := subF32 rayStart sphereCenter
  let a := dotF32 rayDir rayDir
  let b := F32.mul (F32.ofRat 2) (dotF32 o rayDir)
  let c := F32.sub (dotF32 o o) (F32.mul sphereRad sphereRad)
  let disc := F32.sub (F32.mul b b) (F32.mul (F32.mul (F32.ofRat 4) a) c)
  if F32.lt disc (F32.ofRat 0) then
    ⟨F32.ofRat (-1), ⟨F32.ofRat 777, F32.ofRat 777, F32.ofRat 777⟩,
      ⟨F32.ofRat 777, F32.ofRat 777, F32.ofRat 777⟩⟩
  else
    let tHit := F32.div (F32.sub (F32.neg b) (F32.sqrt disc)) (F32.mul (F32.ofRat 2) a)
    let pHit : Vec3 F32 := ⟨F32.add rayStart.x (F32.mul tHit rayDir.x),
      F32.add rayStart.y (F32.mul tHit rayDir.y), F32.add rayStart.z (F32.mul tHit rayDir.z)⟩
    ⟨tHit, pHit, normalizeF32 (subF32 pHit sphereCenter)⟩

theorem fdiv_of_ne {K : Type} [LinearOrderedField K] (a : K) {b : K} (hb : b ≠ 0) :
    fdiv a b = some (a / b) := by
  simp [fdiv, hb]

theorem fdiv_zero {K : Type} [LinearOrderedField K] (a : K) : fdiv a 0 = none := by
  simp [fdiv]

theorem vec4_divScalar_of_ne {K : Type} [LinearOrderedField K] (v : Vec4 K) {s : K}
    (hs : s ≠ 0) : v.divScalar s = some ⟨v.x / s, v.y / s, v.z / s, v.w / s⟩ := by
  simp [Vec4.divScalar, fdiv_of_ne _ hs]

theorem vec3_divScalar_of_ne {K : Type} [LinearOrderedField K] (v : Vec3 K) {s : K}
    (hs : s ≠ 0) : v.divScalar s = some ⟨v.x / s, v.y / s, v.z / s⟩ := by
  simp [Vec3.divScalar, fdiv_of_ne _ hs]

theorem glslPow_of_nonneg {x y : ℝ} (hx : 0 ≤ x) (hy : 0 < y) :
    glslPow x y = some (x ^ y) := by
  unfold glslPow
  rw [if_neg]
  rintro (h | ⟨-, h⟩)
  · exact absurd hx (not_le.mpr h)
  · exact absurd hy (not_lt.mpr h)

theorem rpow_gamma_roundtrip {x : ℝ} (hx : 0 ≤ x) :
    (x ^ ((1.0 : ℝ) / screenGamma)) ^ screenGamma = x := by
  rw [← Real.rpow_mul hx]
  have h : (1.0 : ℝ) / screenGamma * screenGamma = 1 := by
    unfold screenGamma
    norm_num
  rw [h, Real.rpow_one]

theorem gammaCorrect_of_nonneg (c : Vec3 ℝ) (hx : 0 ≤ c.x) (hy : 0 ≤ c.y) (hz : 0 ≤ c.z) :
    gammaCorrect c = some ⟨c.x ^ ((1.0 : ℝ) / screenGamma), c.y ^ ((1.0 : ℝ) / screenGamma),
      c.z ^ ((1.0 : ℝ) / screenGamma)⟩ := by
  have hg : (0 : ℝ) < 1.0 / screenGamma := by unfold screenGamma; norm_num
  simp [gammaCorrect, glslPow3, Vec3.splat, glslPow_of_nonneg hx hg, glslPow_of_nonneg hy hg,
    glslPow_of_nonneg hz hg]

/-! ### `gammaCorrect` and `undoGammaCorrect` -/

/-- C1: for every colour `c` whose three components lie in `[0, 1]`, `gammaCorrect`
is defined and raises each component to the power `1/2.2`, `undoGammaCorrect` is
defined on the result and raises each component to the power `2.2`, and
`undoGammaCorrect (gammaCorrect c) = c`. -/
theorem gamma_roundtrip (c : Vec3 ℝ) (hx : 0 ≤ c.x ∧ c.x ≤ 1) (hy : 0 ≤ c.y ∧ c.y ≤ 1)
    (hz : 0 ≤ c.z ∧ c.z ≤ 1) :
    gammaCorrect c =
        some ⟨c.x ^ ((1 : ℝ) / 2.2), c.y ^ ((1 : ℝ) / 2.2), c.z ^ ((1 : ℝ) / 2.2)⟩ ∧
      undoGammaCorrect ⟨c.x ^ ((1 : ℝ) / 2.2), c.y ^ ((1 : ℝ) / 2.2), c.z ^ ((1 : ℝ) / 2.2)⟩ =
        some ⟨(c.x ^ ((1 : ℝ) / 2.2)) ^ (2.2 : ℝ), (c.y ^ ((1 : ℝ) / 2.2)) ^ (2.2 : ℝ),
          (c.z ^ ((1 : ℝ) / 2.2)) ^ (2.2 : ℝ)⟩ ∧
      (gammaCorrect c).bind undoGammaCorrect = some c := by
  have hg : (0 : ℝ) < screenGamma := by unfold screenGamma; norm_num
  have hone : ((1.0 : ℝ) / screenGamma) = (1 : ℝ) / 2.2 := by unfold screenGamma; norm_num
  have hgc := gammaCorrect_of_nonneg c hx.1 hy.1 hz.1
  have hundo : undoGammaCorrect
      ⟨c.x ^ ((1.0 : ℝ) / screenGamma), c.y ^ ((1.0 : ℝ) / screenGamma),
        c.z ^ ((1.0 : ℝ) / screenGamma)⟩ =
      some ⟨(c.x ^ ((1.0 : ℝ) / screenGamma)) ^ screenGamma,
        (c.y ^ ((1.0 : ℝ) / screenGamma)) ^ screenGamma,
        (c.z ^ ((1.0 : ℝ) / screenGamma)) ^ screenGamma⟩ := by
    simp only [undoGammaCorrect, glslPow3, Vec3.splat]
    rw [glslPow_of_nonneg (Real.rpow_nonneg hx.1 _) hg,
      glslPow_of_nonneg (Real.rpow_nonneg hy.1 _) hg,
      glslPow_of_nonneg (Real.rpow_nonneg hz.1 _) hg]
    rfl
  refine ⟨?_, ?_, ?_⟩
  · rw [hgc, hone]
  · have h := hundo
    rw [hone] at h
    exact h
  · rw [hgc, Option.some_bind, hundo, rpow_gamma_roundtrip hx.1, rpow_gamma_roundtrip hy.1,
      rpow_gamma_roundtrip hz.1]

/-- Witness for C1 at the colour `(0, 1/2, 1)`. -/
theorem gamma_roundtrip_witness :
    gammaCorrect ⟨0, 1 / 2, 1⟩ =
        some ⟨(0 : ℝ) ^ ((1 : ℝ) / 2.2), ((1 : ℝ) / 2) ^ ((1 : ℝ) / 2.2),
          (1 : ℝ) ^ ((1 : ℝ) / 2.2)⟩ ∧
      undoGammaCorrect ⟨(0 : ℝ) ^ ((1 : ℝ) / 2.2), ((1 : ℝ) / 2) ^ ((1 : ℝ) / 2.2),
          (1 : ℝ) ^ ((1 : ℝ) / 2.2)⟩ =
        some ⟨((0 : ℝ) ^ ((1 : ℝ) / 2.2)) ^ (2.2 : ℝ),
          (((1 : ℝ) / 2) ^ ((1 : ℝ) / 2.2)) ^ (2.2 : ℝ),
          ((1 : ℝ) ^ ((1 : ℝ) / 2.2)) ^ (2.2 : ℝ)⟩ ∧
      (gammaCorrect ⟨0, 1 / 2, 1⟩).bind undoGammaCorrect = some (⟨0, 1 / 2, 1⟩ : Vec3 ℝ) :=
  gamma_roundtrip ⟨0, 1 / 2, 1⟩ (by norm_num) (by norm_num) (by norm_num)

/-! ### Lengths and `normalize` -/

theorem dot_self_nonneg (v : Vec3 ℝ) : 0 ≤ dot v v := by
  unfold dot
  nlinarith [mul_self_nonneg v.x, mul_self_nonneg v.y, mul_self_nonneg v.z]

theorem dot_self_eq_zero {v : Vec3 ℝ} : dot v v = 0 ↔ v = ⟨0, 0, 0⟩ := by
  constructor
  · intro h
    unfold dot at h
    have hx : v.x = 0 := by
      nlinarith [mul_self_nonneg v.x, mul_self_nonneg v.y, mul_self_nonneg v.z]
    have hy : v.y = 0 := by
      nlinarith [mul_self_nonneg v.x, mul_self_nonneg v.y, mul_self_nonneg v.z]
    have hz : v.z = 0 := by
      nlinarith [mul_self_nonneg v.x, mul_self_nonneg v.y, mul_self_nonneg v.z]
    ext <;> assumption
  · rintro rfl
    simp [dot]

theorem length_nonneg (v : Vec3 ℝ) : 0 ≤ length v := Real.sqrt_nonneg _

theorem length_sq (v : Vec3 ℝ) : length v ^ 2 = dot v v := Real.sq_sqrt (dot_self_nonneg v)

theorem length_eq_zero {v : Vec3 ℝ} : length v = 0 ↔ v = ⟨0, 0, 0⟩ := by
  unfold length
  rw [Real.sqrt_eq_zero (dot_self_nonneg v), dot_self_eq_zero]

theorem length_pos {v : Vec3 ℝ} (hv : v ≠ ⟨0, 0, 0⟩) : 0 < length v :=
  lt_of_le_of_ne (length_nonneg v) (fun h => hv (length_eq_zero.mp h.symm))

theorem length_smul (t : ℝ) (v : Vec3 ℝ) : length (Vec3.smul t v) = |t| * length v := by
  unfold length
  have h : dot (Vec3.smul t v) (Vec3.smul t v) = t ^ 2 * dot v v := by
    simp only [dot, Vec3.smul]
    ring
  rw [h, Real.sqrt_mul (sq_nonneg t), Real.sqrt_sq_eq_abs]

theorem length_eq_of_sq {v : Vec3 ℝ} {r : ℝ} (hr : 0 ≤ r) (h : dot v v = r ^ 2) :
    length v = r := by
  unfold length
  rw [h, Real.sqrt_sq hr]

theorem normalize_of_ne {v : Vec3 ℝ} (hv : v ≠ ⟨0, 0, 0⟩) :
    normalize v = some ⟨v.x / length v, v.y / length v, v.z / length v⟩ :=
  vec3_divScalar_of_ne v (ne_of_gt (length_pos hv))

theorem normalize_zero : normalize (⟨0, 0, 0⟩ : Vec3 ℝ) = none := by
  simp [normalize, Vec3.divScalar, fdiv, length, dot]

theorem normalize_eq_some {v d : Vec3 ℝ} (h : normalize v = some d) :
    v ≠ ⟨0, 0, 0⟩ ∧ d = ⟨v.x / length v, v.y / length v, v.z / length v⟩ := by
  by_cases hv : v = ⟨0, 0, 0⟩
  · rw [hv, normalize_zero] at h
    exact absurd h (by simp)
  · rw [normalize_of_ne hv] at h
    exact ⟨hv, (Option.some.inj h).symm⟩

theorem dot_normalize {v d : Vec3 ℝ} (h : normalize v = some d) : dot d d = 1 := by
  obtain ⟨hv, rfl⟩ := normalize_eq_some h
  have hl : length v ≠ 0 := ne_of_gt (length_pos hv)
  have hs := length_sq v
  simp only [dot] at hs ⊢
  field_simp
  nlinarith [hs]

theorem smul_normalize {v d : Vec3 ℝ} (h : normalize v = some d) :
    Vec3.smul (length v) d = v := by
  obtain ⟨hv, rfl⟩ := normalize_eq_some h
  have hl : length v ≠ 0 := ne_of_gt (length_pos hv)
  ext <;> simp only [Vec3.smul] <;> field_simp

/-! ### The quadratic of `raySphereIntersection` -/

/-- The squared distance from the sphere centre to the point at parameter `t`. -/
theorem ray_quadratic (rayStart d sphereCenter : Vec3 ℝ) (sphereRad t : ℝ) :
    dot ((rayStart.add (Vec3.smul t d)).sub sphereCenter)
        ((rayStart.add (Vec3.smul t d)).sub sphereCenter) - sphereRad ^ 2 =
      dot d d * t ^ 2 + rayB rayStart d sphereCenter * t + rayC rayStart sphereCenter sphereRad := by
  simp only [dot, Vec3.add, Vec3.sub, Vec3.smul, rayB, rayC]
  ring

theorem onSphere_iff (rayStart d sphereCenter : Vec3 ℝ) (sphereRad t : ℝ) (hd : dot d d = 1) :
    OnSphere sphereCenter sphereRad (rayStart.add (Vec3.smul t d)) ↔
      t ^ 2 + rayB rayStart d sphereCenter * t + rayC rayStart sphereCenter sphereRad = 0 := by
  have h := ray_quadratic rayStart d sphereCenter sphereRad t
  rw [hd, one_mul] at h
  unfold OnSphere
  rw [length_sq, ← h]
  constructor <;> intro h' <;> linarith

theorem rayDisc_eq (rayStart d sphereCenter : Vec3 ℝ) (sphereRad : ℝ) (hd : dot d d = 1) :
    rayDisc rayStart d sphereCenter sphereRad =
      rayB rayStart d sphereCenter ^ 2 - 4 * rayC rayStart sphereCenter sphereRad := by
  unfold rayDisc
  rw [hd]
  ring

theorem rayT_eq (rayStart d sphereCenter : Vec3 ℝ) (sphereRad : ℝ) (hd : dot d d = 1) :
    rayT rayStart d sphereCenter sphereRad =
      (-rayB rayStart d sphereCenter -
        Real.sqrt (rayDisc rayStart d sphereCenter sphereRad)) / 2 := by
  unfold rayT
  rw [hd, mul_one]

/-- On the hit branch `rayT` is a root of the quadratic. -/
theorem rayT_root (rayStart d sphereCenter : Vec3 ℝ) (sphereRad : ℝ) (hd : dot d d = 1)
    (hdisc : 0 ≤ rayDisc rayStart d sphereCenter sphereRad) :
    rayT rayStart d sphereCenter sphereRad ^ 2 +
      rayB rayStart d sphereCenter * rayT rayStart d sphereCenter sphereRad +
      rayC rayStart sphereCenter sphereRad = 0 := by
  have hs := Real.sq_sqrt hdisc
  rw [rayT_eq _ _ _ _ hd]
  have he := rayDisc_eq rayStart d sphereCenter sphereRad hd
  nlinarith [hs, he]

/-- Every root of the quadratic is at least `rayT`. -/
theorem rayT_le_root (rayStart d sphereCenter : Vec3 ℝ) (sphereRad t : ℝ) (hd : dot d d = 1)
    (ht : t ^ 2 + rayB rayStart d sphereCenter * t + rayC rayStart sphereCenter sphereRad = 0) :
    rayT rayStart d sphereCenter sphereRad ≤ t := by
  have he := rayDisc_eq rayStart d sphereCenter sphereRad hd
  have hdisc : rayDisc rayStart d sphereCenter sphereRad =
      (2 * t + rayB rayStart d sphereCenter) ^ 2 := by
    rw [he]
    nlinarith [ht]
  rw [rayT_eq _ _ _ _ hd, hdisc, Real.sqrt_sq_eq_abs]
  have h := neg_abs_le (2 * t + rayB rayStart d sphereCenter)
  linarith

/-- A root of the quadratic forces a non-negative discriminant. -/
theorem rayDisc_nonneg_of_root (rayStart d sphereCenter : Vec3 ℝ) (sphereRad t : ℝ)
    (hd : dot d d = 1)
    (ht : t ^ 2 + rayB rayStart d sphereCenter * t + rayC rayStart sphereCenter sphereRad = 0) :
    0 ≤ rayDisc rayStart d sphereCenter sphereRad := by
  rw [rayDisc_eq _ _ _ _ hd]
  nlinarith [sq_nonneg (2 * t + rayB rayStart d sphereCenter)]

/-! ### The two branches of `raySphereIntersection` -/

theorem raySphereIntersection_miss {rayStart rayDir sphereCenter d : Vec3 ℝ} {sphereRad : ℝ}
    (hn : normalize rayDir = some d) (hdisc : rayDisc rayStart d sphereCenter sphereRad < 0) :
    raySphereIntersection rayStart rayDir sphereCenter sphereRad = some sentinelHit := by
  unfold rayDisc rayB rayC at hdisc
  simp only [raySphereIntersection, hn, Option.bind_eq_bind, Option.some_bind]
  rw [if_pos hdisc]
  rfl

theorem raySphereIntersection_hit {rayStart rayDir sphereCenter d : Vec3 ℝ} {sphereRad : ℝ}
    (hn : normalize rayDir = some d) (hdisc : 0 ≤ rayDisc rayStart d sphereCenter sphereRad) :
    raySphereIntersection rayStart rayDir sphereCenter sphereRad =
      some ⟨rayT rayStart d sphereCenter sphereRad,
        rayStart.add (Vec3.smul (rayT rayStart d sphereCenter sphereRad) d),
        normalize ((rayStart.add (Vec3.smul (rayT rayStart d sphereCenter sphereRad) d)).sub
          sphereCenter)⟩ := by
  have hd := dot_normalize hn
  have h2 : (2 : ℝ) * dot d d ≠ 0 := by rw [hd]; norm_num
  have hdisc' := not_lt.mpr hdisc
  simp only [raySphereIntersection, hn, Option.bind_eq_bind, Option.some_bind]
  simp only [rayT, rayDisc, rayB, rayC] at hdisc' ⊢
  rw [if_neg hdisc']
  simp only [glslSqrt, if_neg hdisc', fdiv_of_ne _ h2, Option.bind_eq_bind, Option.some_bind]
  rfl

/-! ### Concrete evaluations used by the examples -/

theorem sqrt_four : Real.sqrt 4 = 2 := by
  rw [show (4 : ℝ) = 2 ^ 2 by norm_num]
  exact Real.sqrt_sq (by norm_num)

theorem normalize_unit_x : normalize (⟨1, 0, 0⟩ : Vec3 ℝ) = some ⟨1, 0, 0⟩ := by
  rw [normalize_of_ne (by simp)]
  simp [length, dot]

theorem normalize_neg_unit_x : normalize (⟨-1, 0, 0⟩ : Vec3 ℝ) = some ⟨-1, 0, 0⟩ := by
  rw [normalize_of_ne (by simp)]
  simp [length, dot]

theorem normalize_unit_z : normalize (⟨0, 0, 1⟩ : Vec3 ℝ) = some ⟨0, 0, 1⟩ := by
  rw [normalize_of_ne (by simp)]
  simp [length, dot]

theorem normalize_neg_unit_z : normalize (⟨0, 0, -1⟩ : Vec3 ℝ) = some ⟨0, 0, -1⟩ := by
  rw [normalize_of_ne (by simp)]
  simp [length, dot]

/-- A ray from the origin along `+x`, with the unit sphere centred at `(-5, 0, 0)`
behind it: the hit branch runs and returns the negative root `-6`. -/
theorem raySphereIntersection_behind :
    raySphereIntersection ⟨0, 0, 0⟩ ⟨1, 0, 0⟩ ⟨-5, 0, 0⟩ 1 =
      some ⟨-6, ⟨-6, 0, 0⟩, some ⟨-1, 0, 0⟩⟩ := by
  have hdisc : rayDisc ⟨0, 0, 0⟩ ⟨1, 0, 0⟩ ⟨-5, 0, 0⟩ 1 = 4 := by
    simp [rayDisc, rayB, rayC, dot, Vec3.sub]
    norm_num
  have ht : rayT ⟨0, 0, 0⟩ ⟨1, 0, 0⟩ ⟨-5, 0, 0⟩ 1 = -6 := by
    rw [rayT, hdisc, sqrt_four]
    simp [rayB, dot, Vec3.sub]
    norm_num
  rw [raySphereIntersection_hit normalize_unit_x (by rw [hdisc]; norm_num), ht]
  simp [Vec3.add, Vec3.smul, Vec3.sub]
  norm_num
  exact normalize_neg_unit_x

/-- A ray that starts at the centre of the unit sphere: the hit branch runs and
returns the negative root `-1`. -/
theorem raySphereIntersection_inside :
    raySphereIntersection ⟨0, 0, 0⟩ ⟨1, 0, 0⟩ ⟨0, 0, 0⟩ 1 =
      some ⟨-1, ⟨-1, 0, 0⟩, some ⟨-1, 0, 0⟩⟩ := by
  have hdisc : rayDisc ⟨0, 0, 0⟩ ⟨1, 0, 0⟩ ⟨0, 0, 0⟩ 1 = 4 := by
    simp [rayDisc, rayB, rayC, dot, Vec3.sub]
  have ht : rayT ⟨0, 0, 0⟩ ⟨1, 0, 0⟩ ⟨0, 0, 0⟩ 1 = -1 := by
    rw [rayT, hdisc, sqrt_four]
    simp [rayB, dot, Vec3.sub]
  rw [raySphereIntersection_hit normalize_unit_x (by rw [hdisc]; norm_num), ht]
  simp [Vec3.add, Vec3.smul, Vec3.sub]
  exact normalize_neg_unit_x

/-- A ray along `-z` that enters the unit sphere centred at `(777, 777, 776)` in the
point `(777, 777, 777)`. -/
theorem raySphereIntersection_through_777 :
    raySphereIntersection ⟨777, 777, 780⟩ ⟨0, 0, -1⟩ ⟨777, 777, 776⟩ 1 =
      some ⟨3, ⟨777, 777, 777⟩, some ⟨0, 0, 1⟩⟩ := by
  have hdisc : rayDisc ⟨777, 777, 780⟩ ⟨0, 0, -1⟩ ⟨777, 777, 776⟩ 1 = 4 := by
    simp [rayDisc, rayB, rayC, dot, Vec3.sub]
    norm_num
  have ht : rayT ⟨777, 777, 780⟩ ⟨0, 0, -1⟩ ⟨777, 777, 776⟩ 1 = 3 := by
    rw [rayT, hdisc, sqrt_four]
    simp [rayB, dot, Vec3.sub]
    norm_num
  rw [raySphereIntersection_hit normalize_neg_unit_z (by rw [hdisc]; norm_num), ht]
  simp [Vec3.add, Vec3.smul, Vec3.sub]
  norm_num
  exact normalize_unit_z

/-! ### `fragmentViewPosition` inverts the projection -/

theorem Mat4.mulVec4_mulVec4 {K : Type} [LinearOrderedField K] (A B : Mat4 K) (v : Vec4 K) :
    Mat4.mulVec4 A (Mat4.mulVec4 B v) = Mat4.mulVec4 (A * B) v := by
  ext <;> simp [Mat4.mulVec4, Matrix.mul_apply, Fin.sum_univ_four] <;> ring

theorem Mat4.one_mulVec4 {K : Type} [LinearOrderedField K] (v : Vec4 K) :
    Mat4.mulVec4 (1 : Mat4 K) v = v := by
  ext <;> simp [Mat4.mulVec4]

theorem fragDepthFromView_of_ne {K : Type} [LinearOrderedField K] (P : Mat4 K)
    (depthRange : Vec2 K) (p : Vec3 K) (hw : (Mat4.mulVec4 P (Vec4.ofVec3 p 1)).w ≠ 0) :
    fragDepthFromView P depthRange p =
      some (((depthRange.y - depthRange.x) *
          ((Mat4.mulVec4 P (Vec4.ofVec3 p 1)).z / (Mat4.mulVec4 P (Vec4.ofVec3 p 1)).w) +
        depthRange.x + depthRange.y) / 2) := by
  simp [fragDepthFromView, fdiv_of_ne _ hw, fdiv_of_ne _ (two_ne_zero : (2 : K) ≠ 0)]

/-- C2: with `invP * P = 1`, a viewport of non-zero width and height, `near ≠ far`
and a view-space point `p` whose clip coordinate `clip = P * (p, 1)` has
`clip.w ≠ 0`, the depth `fragDepthFromView` is defined and `fragmentViewPosition`
applied to the projection of `p` returns `p`. -/
theorem fragmentViewPosition_roundtrip (P invP : Mat4 ℝ) (viewport : Vec4 ℝ) (near far : ℝ)
    (p : Vec3 ℝ) (clip : Vec4 ℝ) (hclip : clip = Mat4.mulVec4 P (Vec4.ofVec3 p 1))
    (hinv : invP * P = 1) (hvz : viewport.z ≠ 0) (hvw : viewport.w ≠ 0) (hnf : near ≠ far)
    (hw : clip.w ≠ 0) :
    ∃ depth : ℝ, fragDepthFromView P ⟨near, far⟩ p = some depth ∧
      fragmentViewPosition viewport ⟨near, far⟩ invP
        ⟨viewport.x + viewport.z * (clip.x / clip.w + 1) / 2,
         viewport.y + viewport.w * (clip.y / clip.w + 1) / 2,
         depth, 1 / clip.w⟩ = some p := by
  have hfn : far - near ≠ 0 := sub_ne_zero.mpr (Ne.symm hnf)
  have hiw : 1 / clip.w ≠ 0 := one_div_ne_zero hw
  refine ⟨_, by rw [fragDepthFromView_of_ne P ⟨near, far⟩ p (hclip ▸ hw)], ?_⟩
  rw [← hclip]
  have hclipPos : (⟨(2 * (viewport.x + viewport.z * (clip.x / clip.w + 1) / 2) -
        2 * viewport.x) / viewport.z - 1,
      (2 * (viewport.y + viewport.w * (clip.y / clip.w + 1) / 2) - 2 * viewport.y) /
        viewport.w - 1,
      (2 * (((far - near) * (clip.z / clip.w) + near + far) / 2) - near - far) / (far - near),
      1⟩ : Vec4 ℝ).divScalar (1 / clip.w) = some clip := by
    rw [vec4_divScalar_of_ne _ hiw]
    congr 1
    ext
    · simp only; field_simp; ring
    · simp only; field_simp; ring
    · simp only; field_simp; ring
    · simp only; field_simp
  have heye : Mat4.mulVec4 invP clip = Vec4.ofVec3 p 1 := by
    rw [hclip, Mat4.mulVec4_mulVec4, hinv, Mat4.one_mulVec4]
  simp only [fragmentViewPosition, fdiv_of_ne _ hvz, fdiv_of_ne _ hvw, fdiv_of_ne _ hfn,
    Option.bind_eq_bind, Option.some_bind, hclipPos, heye]
  rw [vec3_divScalar_of_ne _ (by simp [Vec4.ofVec3])]
  simp [Vec4.ofVec3, Vec4.xyz]

/-- Witness for C2: a perspective-like projection, the viewport `(0, 0, 2, 2)`, the
depth range `(0, 1)` and the view-space point `(1, 2, 3)`, whose clip coordinate
is `(1, 2, 4, 3)`. -/
theorem fragmentViewPosition_roundtrip_witness :
    ∃ depth : ℝ,
      fragDepthFromView !![1, 0, 0, 0; 0, 1, 0, 0; 0, 0, 1, 1; 0, 0, 1, 0] ⟨0, 1⟩ ⟨1, 2, 3⟩ =
        some depth ∧
      fragmentViewPosition ⟨0, 0, 2, 2⟩ ⟨0, 1⟩
        !![1, 0, 0, 0; 0, 1, 0, 0; 0, 0, 0, 1; 0, 0, 1, -1]
        ⟨0 + 2 * (1 / 3 + 1) / 2, 0 + 2 * (2 / 3 + 1) / 2, depth, 1 / 3⟩ =
        some (⟨1, 2, 3⟩ : Vec3 ℝ) :=
  fragmentViewPosition_roundtrip !![1, 0, 0, 0; 0, 1, 0, 0; 0, 0, 1, 1; 0, 0, 1, 0]
    !![1, 0, 0, 0; 0, 1, 0, 0; 0, 0, 0, 1; 0, 0, 1, -1] ⟨0, 0, 2, 2⟩ 0 1 ⟨1, 2, 3⟩
    ⟨1, 2, 4, 3⟩
    (by
      ext
      all_goals simp [Mat4.mulVec4, Vec4.ofVec3, Matrix.vecHead, Matrix.vecTail]
      all_goals norm_num)
    (by
      ext i j
      fin_cases i <;> fin_cases j <;>
        simp [Matrix.mul_apply, Fin.sum_univ_four, Matrix.vecHead, Matrix.vecTail])
    (by norm_num) (by norm_num) (by norm_num) (by norm_num)

/-! ### `raySphereIntersection` -/

theorem add_smul_sub_self (p v : Vec3 ℝ) (t : ℝ) :
    (p.add (Vec3.smul t v)).sub p = Vec3.smul t v := by
  ext <;> simp [Vec3.add, Vec3.sub, Vec3.smul]

theorem smul_smul_eq (s t : ℝ) (v : Vec3 ℝ) :
    Vec3.smul s (Vec3.smul t v) = Vec3.smul (s * t) v := by
  ext <;> simp [Vec3.smul, mul_assoc]

theorem length_of_dot_one {d : Vec3 ℝ} (hd : dot d d = 1) : length d = 1 := by
  unfold length
  rw [hd, Real.sqrt_one]

/-- A point of the half-line along `rayDir` is the point at parameter
`t * length rayDir` along the normalized direction. -/
theorem onRay_param (rayStart : Vec3 ℝ) {rayDir d : Vec3 ℝ} (hn : normalize rayDir = some d)
    (t : ℝ) :
    rayStart.add (Vec3.smul t rayDir) = rayStart.add (Vec3.smul (t * length rayDir) d) := by
  rw [← smul_smul_eq, smul_normalize hn]

/-! ### The routines in binary32 at the inputs of the examples -/

/-- Binary32, the ray from `(-20000, 0, 0)` along `+x` and the unit sphere at the
origin: `dot(o, o) - 1` rounds to `4e8`, the computed discriminant is `0`, and the hit
branch returns `tHit = 20000` with the centre of the sphere as `pHit`; `nHit`, the
`normalize` of the zero vector, is NaN. -/
theorem raySphereIntersectionF32_far :
    raySphereIntersectionF32 ⟨F32.num (-20000), F32.zero false, F32.zero false⟩
        ⟨F32.num 1, F32.zero false, F32.zero false⟩
        ⟨F32.zero false, F32.zero false, F32.zero false⟩ (F32.num 1) =
      ⟨F32.num 20000, ⟨F32.zero false, F32.zero false, F32.zero false⟩,
        ⟨F32.nan, F32.nan, F32.nan⟩⟩ := by
  decide!

/-- Binary32, the ray from `(-20000, 2, 0)` along `+x`, which passes the unit sphere at
the origin at distance `2`: `dot(o, o) - 1` again rounds to `4e8`, the computed
discriminant is `0`, and the hit branch returns `tHit = 20000`, `pHit = (0, 2, 0)`. -/
theorem raySphereIntersectionF32_far_off_axis :
    raySphereIntersectionF32 ⟨F32.num (-20000), F32.num 2, F32.zero false⟩
        ⟨F32.num 1, F32.zero false, F32.zero false⟩
        ⟨F32.zero false, F32.zero false, F32.zero false⟩ (F32.num 1) =
      ⟨F32.num 20000, ⟨F32.zero false, F32.num 2, F32.zero false⟩,
        ⟨F32.zero false, F32.num 1, F32.zero false⟩⟩ := by
  decide!

/-- Binary32 agrees with the exact routine for the sphere behind the ray. -/
theorem raySphereIntersectionF32_behind :
    raySphereIntersectionF32 ⟨F32.zero false, F32.zero false, F32.zero false⟩
        ⟨F32.num 1, F32.zero false, F32.zero false⟩
        ⟨F32.num (-5), F32.zero false, F32.zero false⟩ (F32.num 1) =
      ⟨F32.num (-6), ⟨F32.num (-6), F32.zero false, F32.zero false⟩,
        ⟨F32.num (-1), F32.zero false, F32.zero false⟩⟩ := by
  decide!

/-- Binary32 agrees with the exact routine for the ray from the centre. -/
theorem raySphereIntersectionF32_inside :
    raySphereIntersectionF32 ⟨F32.zero false, F32.zero false, F32.zero false⟩
        ⟨F32.num 1, F32.zero false, F32.zero false⟩
        ⟨F32.zero false, F32.zero false, F32.zero false⟩ (F32.num 1) =
      ⟨F32.num (-1), ⟨F32.num (-1), F32.zero false, F32.zero false⟩,
        ⟨F32.num (-1), F32.zero false, F32.zero false⟩⟩ := by
  decide!

/-- Binary32 agrees with the exact routine for the ray that enters in
`(777, 777, 777)`. -/
theorem raySphereIntersectionF32_through_777 :
    raySphereIntersectionF32 ⟨F32.num 777, F32.num 777, F32.num 780⟩
        ⟨F32.zero false, F32.zero false, F32.num (-1)⟩
        ⟨F32.num 777, F32.num 777, F32.num 776⟩ (F32.num 1) =
      ⟨F32.num 3, ⟨F32.num 777, F32.num 777, F32.num 777⟩,
        ⟨F32.zero false, F32.zero false, F32.num 1⟩⟩ := by
  decide!

/-- The exact discriminant for the ray from `(-20000, 0, 0)` is `4`. -/
theorem rayDisc_far : rayDisc ⟨-20000, 0, 0⟩ ⟨1, 0, 0⟩ ⟨0, 0, 0⟩ 1 = 4 := by
  simp [rayDisc, rayB, rayC, dot, Vec3.sub]
  norm_num

theorem rayDisc_far_nonneg (d : Vec3 ℝ) (hd : normalize ⟨1, 0, 0⟩ = some d) :
    0 ≤ rayDisc ⟨-20000, 0, 0⟩ d ⟨0, 0, 0⟩ 1 := by
  rw [normalize_unit_x] at hd
  rw [← Option.some.inj hd, rayDisc_far]
  norm_num

/-- In exact terms the parameter `20000` is not a root for the ray from
`(-20000, 0, 0)`: the point at that parameter is the centre of the sphere. -/
theorem far_not_root (d : Vec3 ℝ) (hd : normalize ⟨1, 0, 0⟩ = some d) :
    length (((⟨-20000, 0, 0⟩ : Vec3 ℝ).add (Vec3.smul 20000 d)).sub ⟨0, 0, 0⟩) ^ 2 ≠
      (1 : ℝ) ^ 2 := by
  rw [normalize_unit_x] at hd
  rw [← Option.some.inj hd, length_sq]
  simp [dot, Vec3.add, Vec3.sub, Vec3.smul]

/-- In exact terms the line through `(-20000, 2, 0)` along `+x` has no point on the unit
sphere at the origin. -/
theorem far_off_axis_misses (t : ℝ) :
    ¬ OnSphere ⟨0, 0, 0⟩ 1 ((⟨-20000, 2, 0⟩ : Vec3 ℝ).add (Vec3.smul t ⟨1, 0, 0⟩)) := by
  intro h
  unfold OnSphere at h
  rw [length_sq] at h
  simp only [dot, Vec3.add, Vec3.sub, Vec3.smul] at h
  nlinarith [sq_nonneg (-20000 + t * 1 - 0)]

theorem length_unit_x : length (⟨1, 0, 0⟩ : Vec3 ℝ) = 1 := by
  simp [length, dot]

/-- In exact terms the nearest hit of the ray from `(-20000, 0, 0)` is not at distance
`20000`. -/
theorem far_not_nearest :
    ¬ IsNearestHitDistance ⟨-20000, 0, 0⟩ ⟨1, 0, 0⟩ ⟨0, 0, 0⟩ 1 20000 := by
  rintro ⟨q, ⟨t, ht, rfl⟩, hs, hd, -⟩
  rw [add_smul_sub_self, length_smul, length_unit_x, mul_one, abs_of_nonneg ht] at hd
  subst hd
  unfold OnSphere at hs
  rw [length_sq] at hs
  simp [dot, Vec3.add, Vec3.sub, Vec3.smul] at hs

/-- C3 as stated fails on the binary32 program: the line through `(-20000, 2, 0)` along
`+x` passes the unit sphere at the origin at distance `2`, so no real `t` satisfies the
equation, yet the computed discriminant is `0`, the hit branch runs and the outputs
are `tHit = 20000`, `pHit = (0, 2, 0)`, `nHit = (0, 1, 0)`, not the sentinel values. -/
theorem raySphereIntersection_no_root_counterexample :
    (⟨1, 0, 0⟩ : Vec3 ℝ) ≠ ⟨0, 0, 0⟩ ∧
      (∀ d : Vec3 ℝ, normalize ⟨1, 0, 0⟩ = some d → ∀ t : ℝ,
        length (((⟨-20000, 2, 0⟩ : Vec3 ℝ).add (Vec3.smul t d)).sub ⟨0, 0, 0⟩) ^ 2 ≠
          (1 : ℝ) ^ 2) ∧
      raySphereIntersectionF32 ⟨F32.num (-20000), F32.num 2, F32.zero false⟩
          ⟨F32.num 1, F32.zero false, F32.zero false⟩
          ⟨F32.zero false, F32.zero false, F32.zero false⟩ (F32.num 1) =
        ⟨F32.num 20000, ⟨F32.zero false, F32.num 2, F32.zero false⟩,
          ⟨F32.zero false, F32.num 1, F32.zero false⟩⟩ ∧
      raySphereIntersectionF32 ⟨F32.num (-20000), F32.num 2, F32.zero false⟩
          ⟨F32.num 1, F32.zero false, F32.zero false⟩
          ⟨F32.zero false, F32.zero false, F32.zero false⟩ (F32.num 1) ≠
        ⟨F32.num (-1), ⟨F32.num 777, F32.num 777, F32.num 777⟩,
          ⟨F32.num 777, F32.num 777, F32.num 777⟩⟩ := by
  refine ⟨by simp, ?_, raySphereIntersectionF32_far_off_axis, ?_⟩
  · intro d hd t
    rw [normalize_unit_x] at hd
    rw [← Option.some.inj hd]
    exact far_off_axis_misses t
  · rw [raySphereIntersectionF32_far_off_axis]
    decide

/-- C3, amended: over the reals, for a non-zero `rayDir`, if no real `t` satisfies
`|rayStart + t * normalize(rayDir) - sphereCenter|^2 = radius^2`, then the
discriminant is negative and the outputs are exactly `tHit = -1`,
`pHit = (777, 777, 777)` and `nHit = (777, 777, 777)`. -/
theorem raySphereIntersection_no_root (rayStart rayDir sphereCenter : Vec3 ℝ) (sphereRad : ℝ)
    (hdir : rayDir ≠ ⟨0, 0, 0⟩)
    (hno : ∀ d : Vec3 ℝ, normalize rayDir = some d → ∀ t : ℝ,
      length ((rayStart.add (Vec3.smul t d)).sub sphereCenter) ^ 2 ≠ sphereRad ^ 2) :
    (∃ d : Vec3 ℝ, normalize rayDir = some d ∧
        rayDisc rayStart d sphereCenter sphereRad < 0) ∧
      raySphereIntersection rayStart rayDir sphereCenter sphereRad =
        some ⟨-1, ⟨777, 777, 777⟩, some ⟨777, 777, 777⟩⟩ := by
  obtain ⟨d, hn⟩ : ∃ d : Vec3 ℝ, normalize rayDir = some d := ⟨_, normalize_of_ne hdir⟩
  have hd := dot_normalize hn
  have hdisc : rayDisc rayStart d sphereCenter sphereRad < 0 := by
    by_contra hcon
    exact hno d hn _ ((onSphere_iff rayStart d sphereCenter sphereRad _ hd).mpr
      (rayT_root rayStart d sphereCenter sphereRad hd (not_lt.mp hcon)))
  exact ⟨⟨d, hn, hdisc⟩, raySphereIntersection_miss hn hdisc⟩

/-- Witness for C3, amended: the ray from `(0, 5, 0)` along `(2, 0, 0)` and the unit sphere at
the origin. -/
theorem raySphereIntersection_no_root_witness :
    (∃ d : Vec3 ℝ, normalize ⟨2, 0, 0⟩ = some d ∧ rayDisc ⟨0, 5, 0⟩ d ⟨0, 0, 0⟩ 1 < 0) ∧
      raySphereIntersection ⟨0, 5, 0⟩ ⟨2, 0, 0⟩ ⟨0, 0, 0⟩ 1 =
        some ⟨-1, ⟨777, 777, 777⟩, some ⟨777, 777, 777⟩⟩ :=
  raySphereIntersection_no_root ⟨0, 5, 0⟩ ⟨2, 0, 0⟩ ⟨0, 0, 0⟩ 1 (by simp) (by
    intro d hd t h
    obtain ⟨-, rfl⟩ := normalize_eq_some hd
    rw [length_sq] at h
    simp only [dot, Vec3.add, Vec3.sub, Vec3.smul, zero_div, mul_zero] at h
    nlinarith [mul_self_nonneg (0 + t * (2 / length ⟨2, 0, 0⟩) - 0)])

/-- C4 as stated fails twice.  In exact arithmetic and in binary32 alike: the half-line
from the origin along `+x` has no point on the unit sphere centred at `(-5, 0, 0)`, yet
the outputs are `tHit = -6`, `pHit = (-6, 0, 0)`, `nHit = (-1, 0, 0)` and not the
sentinel values.  In binary32 only: the line through `(-20000, 2, 0)` along `+x` has no
point on the unit sphere at the origin, yet the outputs are `tHit = 20000`,
`pHit = (0, 2, 0)`, `nHit = (0, 1, 0)`. -/
theorem raySphereIntersection_ray_miss_counterexample :
    (⟨1, 0, 0⟩ : Vec3 ℝ) ≠ ⟨0, 0, 0⟩ ∧
      (∀ q : Vec3 ℝ, OnRay ⟨0, 0, 0⟩ ⟨1, 0, 0⟩ q → ¬ OnSphere ⟨-5, 0, 0⟩ 1 q) ∧
      raySphereIntersection ⟨0, 0, 0⟩ ⟨1, 0, 0⟩ ⟨-5, 0, 0⟩ 1 =
        some ⟨-6, ⟨-6, 0, 0⟩, some ⟨-1, 0, 0⟩⟩ ∧
      raySphereIntersection ⟨0, 0, 0⟩ ⟨1, 0, 0⟩ ⟨-5, 0, 0⟩ 1 ≠
        some ⟨-1, ⟨777, 777, 777⟩, some ⟨777, 777, 777⟩⟩ ∧
      raySphereIntersectionF32 ⟨F32.zero false, F32.zero false, F32.zero false⟩
          ⟨F32.num 1, F32.zero false, F32.zero false⟩
          ⟨F32.num (-5), F32.zero false, F32.zero false⟩ (F32.num 1) =
        ⟨F32.num (-6), ⟨F32.num (-6), F32.zero false, F32.zero false⟩,
          ⟨F32.num (-1), F32.zero false, F32.zero false⟩⟩ ∧
      (∀ q : Vec3 ℝ, OnRay ⟨-20000, 2, 0⟩ ⟨1, 0, 0⟩ q → ¬ OnSphere ⟨0, 0, 0⟩ 1 q) ∧
      raySphereIntersectionF32 ⟨F32.num (-20000), F32.num 2, F32.zero false⟩
          ⟨F32.num 1, F32.zero false, F32.zero false⟩
          ⟨F32.zero false, F32.zero false, F32.zero false⟩ (F32.num 1) =
        ⟨F32.num 20000, ⟨F32.zero false, F32.num 2, F32.zero false⟩,
          ⟨F32.zero false, F32.num 1, F32.zero false⟩⟩ := by
  refine ⟨by simp, ?_, raySphereIntersection_behind, ?_, raySphereIntersectionF32_behind,
    ?_, raySphereIntersectionF32_far_off_axis⟩
  · rintro q ⟨t, ht, rfl⟩ h
    unfold OnSphere at h
    rw [length_sq] at h
    simp only [dot, Vec3.add, Vec3.sub, Vec3.smul] at h
    nlinarith
  · rw [raySphereIntersection_behind]
    intro h
    have h' := congrArg RayHit.tHit (Option.some.inj h)
    norm_num at h'
  · rintro q ⟨t, -, rfl⟩
    exact far_off_axis_misses t

/-- C4, amended: over the reals, for a non-zero `rayDir`, if no point of the half-line
`rayStart + t * rayDir`, `t >= 0`, lies on the sphere, then the returned `tHit` is
negative; and the outputs are the sentinel values `tHit = -1`,
`pHit = nHit = (777, 777, 777)` when no point of the whole line lies on the sphere. -/
theorem raySphereIntersection_ray_miss (rayStart rayDir sphereCenter : Vec3 ℝ)
    (sphereRad : ℝ) (hdir : rayDir ≠ ⟨0, 0, 0⟩)
    (hmiss : ∀ q : Vec3 ℝ, OnRay rayStart rayDir q → ¬ OnSphere sphereCenter sphereRad q) :
    ∃ h : RayHit, raySphereIntersection rayStart rayDir sphereCenter sphereRad = some h ∧
      h.tHit < 0 ∧
      ((∀ t : ℝ, ¬ OnSphere sphereCenter sphereRad (rayStart.add (Vec3.smul t rayDir))) →
        h = ⟨-1, ⟨777, 777, 777⟩, some ⟨777, 777, 777⟩⟩) := by
  obtain ⟨d, hn⟩ : ∃ d : Vec3 ℝ, normalize rayDir = some d := ⟨_, normalize_of_ne hdir⟩
  have hd := dot_normalize hn
  have hl := length_pos hdir
  by_cases hdisc : rayDisc rayStart d sphereCenter sphereRad < 0
  · exact ⟨_, raySphereIntersection_miss hn hdisc, by norm_num [sentinelHit], fun _ => rfl⟩
  · have hdisc' := not_lt.mp hdisc
    have hroot := (onSphere_iff rayStart d sphereCenter sphereRad _ hd).mpr
      (rayT_root rayStart d sphereCenter sphereRad hd hdisc')
    have hparam := onRay_param rayStart hn
      (rayT rayStart d sphereCenter sphereRad / length rayDir)
    rw [div_mul_cancel₀ _ (ne_of_gt hl)] at hparam
    refine ⟨_, raySphereIntersection_hit hn hdisc', ?_, ?_⟩
    · by_contra hcon
      refine hmiss _ ⟨_, div_nonneg (not_lt.mp hcon) (le_of_lt hl), hparam.symm⟩ hroot
    · intro hline
      rw [← hparam] at hroot
      exact absurd hroot (hline _)

/-- Witness for C4, amended: the ray from the origin along `+x` and the unit sphere
centred at `(-5, 0, 0)`. -/
theorem raySphereIntersection_ray_miss_witness :
    ∃ h : RayHit, raySphereIntersection ⟨0, 0, 0⟩ ⟨1, 0, 0⟩ ⟨-5, 0, 0⟩ 1 = some h ∧
      h.tHit < 0 ∧
      ((∀ t : ℝ, ¬ OnSphere ⟨-5, 0, 0⟩ 1
          ((⟨0, 0, 0⟩ : Vec3 ℝ).add (Vec3.smul t ⟨1, 0, 0⟩))) →
        h = ⟨-1, ⟨777, 777, 777⟩, some ⟨777, 777, 777⟩⟩) :=
  raySphereIntersection_ray_miss ⟨0, 0, 0⟩ ⟨1, 0, 0⟩ ⟨-5, 0, 0⟩ 1 (by simp) (by
    rintro q ⟨t, ht, rfl⟩ h
    unfold OnSphere at h
    rw [length_sq] at h
    simp only [dot, Vec3.add, Vec3.sub, Vec3.smul] at h
    nlinarith)

/-- C5 as stated fails on the binary32 program: for the ray from `(-20000, 0, 0)` along
`+x` and the unit sphere at the origin the discriminant is non-negative (`4` exactly,
`0` as computed), the hit branch runs, and the hit point returned is the centre of the
sphere, at distance `0` and not `1` from it. -/
theorem raySphereIntersection_pHit_on_sphere_counterexample :
    (⟨1, 0, 0⟩ : Vec3 ℝ) ≠ ⟨0, 0, 0⟩ ∧ (0 : ℝ) ≤ 1 ∧
      (∀ d : Vec3 ℝ, normalize ⟨1, 0, 0⟩ = some d →
        0 ≤ rayDisc ⟨-20000, 0, 0⟩ d ⟨0, 0, 0⟩ 1) ∧
      raySphereIntersectionF32 ⟨F32.num (-20000), F32.zero false, F32.zero false⟩
          ⟨F32.num 1, F32.zero false, F32.zero false⟩
          ⟨F32.zero false, F32.zero false, F32.zero false⟩ (F32.num 1) =
        ⟨F32.num 20000, ⟨F32.zero false, F32.zero false, F32.zero false⟩,
          ⟨F32.nan, F32.nan, F32.nan⟩⟩ ∧
      lengthF32 (subF32 ⟨F32.zero false, F32.zero false, F32.zero false⟩
          ⟨F32.zero false, F32.zero false, F32.zero false⟩) = F32.zero false := by
  refine ⟨by simp, by norm_num, rayDisc_far_nonneg, raySphereIntersectionF32_far, ?_⟩
  decide!

/-- C5, amended: over the reals, for a non-zero `rayDir` and a radius `r >= 0`, on the
hit branch (non-negative discriminant) the returned hit point satisfies
`|pHit - sphereCenter| = r`. -/
theorem raySphereIntersection_pHit_on_sphere (rayStart rayDir sphereCenter : Vec3 ℝ)
    (sphereRad : ℝ) (hdir : rayDir ≠ ⟨0, 0, 0⟩) (hr : 0 ≤ sphereRad)
    (hdisc : ∀ d : Vec3 ℝ, normalize rayDir = some d →
      0 ≤ rayDisc rayStart d sphereCenter sphereRad) :
    ∃ h : RayHit, raySphereIntersection rayStart rayDir sphereCenter sphereRad = some h ∧
      length (h.pHit.sub sphereCenter) = sphereRad := by
  obtain ⟨d, hn⟩ : ∃ d : Vec3 ℝ, normalize rayDir = some d := ⟨_, normalize_of_ne hdir⟩
  have hd := dot_normalize hn
  have hroot := (onSphere_iff rayStart d sphereCenter sphereRad _ hd).mpr
    (rayT_root rayStart d sphereCenter sphereRad hd (hdisc d hn))
  refine ⟨_, raySphereIntersection_hit hn (hdisc d hn), ?_⟩
  unfold OnSphere at hroot
  rw [length_sq] at hroot
  exact length_eq_of_sq hr hroot

/-- Witness for C5, amended: the ray from the origin along `+x` and the unit sphere centred at
`(-5, 0, 0)`, where the discriminant is `4`. -/
theorem raySphereIntersection_pHit_on_sphere_witness :
    ∃ h : RayHit, raySphereIntersection ⟨0, 0, 0⟩ ⟨1, 0, 0⟩ ⟨-5, 0, 0⟩ 1 = some h ∧
      length (h.pHit.sub ⟨-5, 0, 0⟩) = 1 :=
  raySphereIntersection_pHit_on_sphere ⟨0, 0, 0⟩ ⟨1, 0, 0⟩ ⟨-5, 0, 0⟩ 1 (by simp)
    (by norm_num) (by
      intro d hd
      rw [normalize_unit_x] at hd
      rw [← Option.some.inj hd]
      simp [rayDisc, rayB, rayC, dot, Vec3.sub]
      norm_num)

/-- C6 as stated fails twice.  In exact arithmetic and in binary32 alike: for the unit
sphere at the origin and the ray that starts at its centre, the half-line meets the
sphere (in `(1, 0, 0)`, at distance `1`), but the returned `tHit` is `-1`, which is not
the distance to the nearest hit.  In binary32 only: the ray from `(-20000, 0, 0)` along
`+x` starts outside the sphere and meets it, the returned `tHit` is `20000`, and the
nearest hit is not at distance `20000` (it is at `19999`). -/
theorem raySphereIntersection_nearest_counterexample :
    (⟨1, 0, 0⟩ : Vec3 ℝ) ≠ ⟨0, 0, 0⟩ ∧
      (∃ q : Vec3 ℝ, OnRay ⟨0, 0, 0⟩ ⟨1, 0, 0⟩ q ∧ OnSphere ⟨0, 0, 0⟩ 1 q) ∧
      raySphereIntersection ⟨0, 0, 0⟩ ⟨1, 0, 0⟩ ⟨0, 0, 0⟩ 1 =
        some ⟨-1, ⟨-1, 0, 0⟩, some ⟨-1, 0, 0⟩⟩ ∧
      ¬ IsNearestHitDistance ⟨0, 0, 0⟩ ⟨1, 0, 0⟩ ⟨0, 0, 0⟩ 1 (-1) ∧
      raySphereIntersectionF32 ⟨F32.zero false, F32.zero false, F32.zero false⟩
          ⟨F32.num 1, F32.zero false, F32.zero false⟩
          ⟨F32.zero false, F32.zero false, F32.zero false⟩ (F32.num 1) =
        ⟨F32.num (-1), ⟨F32.num (-1), F32.zero false, F32.zero false⟩,
          ⟨F32.num (-1), F32.zero false, F32.zero false⟩⟩ ∧
      (∃ q : Vec3 ℝ, OnRay ⟨-20000, 0, 0⟩ ⟨1, 0, 0⟩ q ∧ OnSphere ⟨0, 0, 0⟩ 1 q) ∧
      (1 : ℝ) < length ⟨-20000, 0, 0⟩ ∧
      raySphereIntersectionF32 ⟨F32.num (-20000), F32.zero false, F32.zero false⟩
          ⟨F32.num 1, F32.zero false, F32.zero false⟩
          ⟨F32.zero false, F32.zero false, F32.zero false⟩ (F32.num 1) =
        ⟨F32.num 20000, ⟨F32.zero false, F32.zero false, F32.zero false⟩,
          ⟨F32.nan, F32.nan, F32.nan⟩⟩ ∧
      ¬ IsNearestHitDistance ⟨-20000, 0, 0⟩ ⟨1, 0, 0⟩ ⟨0, 0, 0⟩ 1 20000 := by
  refine ⟨by simp, ⟨⟨1, 0, 0⟩, ⟨1, by norm_num, by simp [Vec3.add, Vec3.smul]⟩, ?_⟩,
    raySphereIntersection_inside, ?_, raySphereIntersectionF32_inside,
    ⟨⟨-1, 0, 0⟩, ⟨19999, by norm_num, by simp [Vec3.add, Vec3.smul]; norm_num⟩, ?_⟩, ?_,
    raySphereIntersectionF32_far, far_not_nearest⟩
  · unfold OnSphere
    rw [length_sq]
    simp [dot, Vec3.sub]
  · rintro ⟨q, -, -, hq, -⟩
    have h := length_nonneg (q.sub ⟨0, 0, 0⟩)
    linarith
  · unfold OnSphere
    rw [length_sq]
    simp [dot, Vec3.sub]
  · have h : length (⟨-20000, 0, 0⟩ : Vec3 ℝ) = 20000 :=
      length_eq_of_sq (by norm_num) (by simp [dot]; norm_num)
    rw [h]
    norm_num

/-- C6, amended: over the reals, for a sphere of radius `r > 0` centred at the origin
and a ray with
non-zero `rayDir` whose half-line meets the sphere, whenever the returned `tHit` is
non-negative it is the Euclidean distance from `rayStart` to the nearest point in
which the half-line meets the sphere; and `tHit` is positive whenever `rayStart`
lies outside the sphere, `|rayStart| > r`. -/
theorem raySphereIntersection_nearest (rayStart rayDir : Vec3 ℝ) (sphereRad : ℝ)
    (hr : 0 < sphereRad) (hdir : rayDir ≠ ⟨0, 0, 0⟩)
    (hmeet : ∃ q : Vec3 ℝ, OnRay rayStart rayDir q ∧ OnSphere ⟨0, 0, 0⟩ sphereRad q) :
    ∃ h : RayHit, raySphereIntersection rayStart rayDir ⟨0, 0, 0⟩ sphereRad = some h ∧
      (sphereRad < length rayStart → 0 < h.tHit) ∧
      (0 ≤ h.tHit → IsNearestHitDistance rayStart rayDir ⟨0, 0, 0⟩ sphereRad h.tHit) := by
  obtain ⟨d, hn⟩ : ∃ d : Vec3 ℝ, normalize rayDir = some d := ⟨_, normalize_of_ne hdir⟩
  have hd := dot_normalize hn
  have hl := length_pos hdir
  obtain ⟨q0, ⟨s, hs, rfl⟩, hq0⟩ := hmeet
  rw [onRay_param rayStart hn s] at hq0
  have h0 := (onSphere_iff rayStart d ⟨0, 0, 0⟩ sphereRad _ hd).mp hq0
  have hdisc := rayDisc_nonneg_of_root rayStart d ⟨0, 0, 0⟩ sphereRad _ hd h0
  have hT := rayT_root rayStart d ⟨0, 0, 0⟩ sphereRad hd hdisc
  have hle := rayT_le_root rayStart d ⟨0, 0, 0⟩ sphereRad _ hd h0
  have ht0 : 0 ≤ s * length rayDir := mul_nonneg hs (le_of_lt hl)
  refine ⟨_, raySphereIntersection_hit hn hdisc, ?_, ?_⟩
  · intro hout
    show 0 < rayT rayStart d ⟨0, 0, 0⟩ sphereRad
    have hc : 0 < rayC rayStart ⟨0, 0, 0⟩ sphereRad := by
      have h1 : sphereRad ^ 2 < length rayStart ^ 2 := by nlinarith
      rw [length_sq] at h1
      simp only [rayC, dot, Vec3.sub, sub_zero] at h1 ⊢
      nlinarith
    by_contra hcon
    have hT0 : rayT rayStart d ⟨0, 0, 0⟩ sphereRad ≤ 0 := not_lt.mp hcon
    have hprod : (s * length rayDir - rayT rayStart d ⟨0, 0, 0⟩ sphereRad) *
        (s * length rayDir + rayT rayStart d ⟨0, 0, 0⟩ sphereRad +
          rayB rayStart d ⟨0, 0, 0⟩) = 0 := by
      linear_combination h0 - hT
    rcases mul_eq_zero.mp hprod with h1 | h1
    · have h2 : rayT rayStart d ⟨0, 0, 0⟩ sphereRad = 0 := by linarith
      rw [h2] at hT
      nlinarith
    · have h2 : rayC rayStart ⟨0, 0, 0⟩ sphereRad =
          s * length rayDir * rayT rayStart d ⟨0, 0, 0⟩ sphereRad := by
        linear_combination hT - rayT rayStart d ⟨0, 0, 0⟩ sphereRad * h1
      nlinarith [mul_nonneg ht0 (neg_nonneg.mpr hT0)]
  · intro hT0
    have hT0' : 0 ≤ rayT rayStart d ⟨0, 0, 0⟩ sphereRad := hT0
    have hparam := onRay_param rayStart hn
      (rayT rayStart d ⟨0, 0, 0⟩ sphereRad / length rayDir)
    rw [div_mul_cancel₀ _ (ne_of_gt hl)] at hparam
    have hlen : ∀ t : ℝ, 0 ≤ t →
        length ((rayStart.add (Vec3.smul t d)).sub rayStart) = t := by
      intro t ht
      rw [add_smul_sub_self, length_smul, length_of_dot_one hd, abs_of_nonneg ht, mul_one]
    refine ⟨rayStart.add (Vec3.smul (rayT rayStart d ⟨0, 0, 0⟩ sphereRad) d),
      ⟨_, div_nonneg hT0' (le_of_lt hl), hparam.symm⟩,
      (onSphere_iff rayStart d ⟨0, 0, 0⟩ sphereRad _ hd).mpr hT, (hlen _ hT0').symm, ?_⟩
    rintro q' ⟨s', hs', rfl⟩ hq'
    rw [onRay_param rayStart hn s'] at hq' ⊢
    have hroot' := (onSphere_iff rayStart d ⟨0, 0, 0⟩ sphereRad _ hd).mp hq'
    rw [hlen _ hT0', hlen _ (mul_nonneg hs' (le_of_lt hl))]
    exact rayT_le_root rayStart d ⟨0, 0, 0⟩ sphereRad _ hd hroot'

/-- Witness for C6, amended: the ray from `(-5, 0, 0)` along `+x` and the unit
sphere at the origin, which it enters in `(-1, 0, 0)`. -/
theorem raySphereIntersection_nearest_witness :
    ∃ h : RayHit, raySphereIntersection ⟨-5, 0, 0⟩ ⟨1, 0, 0⟩ ⟨0, 0, 0⟩ 1 = some h ∧
      ((1 : ℝ) < length ⟨-5, 0, 0⟩ → 0 < h.tHit) ∧
      (0 ≤ h.tHit → IsNearestHitDistance ⟨-5, 0, 0⟩ ⟨1, 0, 0⟩ ⟨0, 0, 0⟩ 1 h.tHit) :=
  raySphereIntersection_nearest ⟨-5, 0, 0⟩ ⟨1, 0, 0⟩ 1 (by norm_num) (by simp)
    ⟨⟨-1, 0, 0⟩, ⟨4, by norm_num, by simp [Vec3.add, Vec3.smul]; norm_num⟩, by
      unfold OnSphere
      rw [length_sq]
      simp [dot, Vec3.sub]⟩

/-- C7 as stated fails twice.  In exact arithmetic and in binary32 alike, in its last
part: the ray from `(777, 777, 780)` along `-z` and the unit sphere centred at
`(777, 777, 776)` give `tHit = 3 >= 0`, and the hit point `pHit` is `(777, 777, 777)`,
the value that is also the sentinel.  In binary32 only: the ray from `(-20000, 0, 0)`
along `+x` and the unit sphere at the origin give `tHit = 20000 >= 0`, with `pHit` the
centre of the sphere, at computed distance `0` from it, and `nHit` NaN. -/
theorem raySphereIntersection_check_counterexample :
    (0 : ℝ) < 1 ∧ (⟨0, 0, -1⟩ : Vec3 ℝ) ≠ ⟨0, 0, 0⟩ ∧
      (∃ h : RayHit,
        raySphereIntersection ⟨777, 777, 780⟩ ⟨0, 0, -1⟩ ⟨777, 777, 776⟩ 1 = some h ∧
        0 ≤ h.tHit ∧ h.pHit = ⟨777, 777, 777⟩) ∧
      raySphereIntersectionF32 ⟨F32.num 777, F32.num 777, F32.num 780⟩
          ⟨F32.zero false, F32.zero false, F32.num (-1)⟩
          ⟨F32.num 777, F32.num 777, F32.num 776⟩ (F32.num 1) =
        ⟨F32.num 3, ⟨F32.num 777, F32.num 777, F32.num 777⟩,
          ⟨F32.zero false, F32.zero false, F32.num 1⟩⟩ ∧
      (⟨1, 0, 0⟩ : Vec3 ℝ) ≠ ⟨0, 0, 0⟩ ∧
      raySphereIntersectionF32 ⟨F32.num (-20000), F32.zero false, F32.zero false⟩
          ⟨F32.num 1, F32.zero false, F32.zero false⟩
          ⟨F32.zero false, F32.zero false, F32.zero false⟩ (F32.num 1) =
        ⟨F32.num 20000, ⟨F32.zero false, F32.zero false, F32.zero false⟩,
          ⟨F32.nan, F32.nan, F32.nan⟩⟩ ∧
      F32.lt (F32.num 20000) (F32.ofRat 0) = false ∧
      lengthF32 (subF32 ⟨F32.zero false, F32.zero false, F32.zero false⟩
          ⟨F32.zero false, F32.zero false, F32.zero false⟩) = F32.zero false := by
  refine ⟨by norm_num, by simp, ⟨_, raySphereIntersection_through_777, ?_, rfl⟩,
    raySphereIntersectionF32_through_777, by simp, raySphereIntersectionF32_far, ?_, ?_⟩
  · norm_num
  · decide!
  · decide!

/-- C7, amended: over the reals, for a radius `r > 0` and a non-zero `rayDir`, if the
returned `tHit`
is non-negative then the sentinel branch was not taken (the discriminant is
non-negative), `pHit = rayStart + tHit * normalize(rayDir)` lies on the sphere,
`nHit` is defined, equals `(pHit - sphereCenter) / r` and is a unit vector; in
particular `tHit` is not `-1` and `nHit` is not `(777, 777, 777)`. -/
theorem raySphereIntersection_check (rayStart rayDir sphereCenter : Vec3 ℝ) (sphereRad : ℝ)
    (hr : 0 < sphereRad) (hdir : rayDir ≠ ⟨0, 0, 0⟩) :
    ∃ (h : RayHit) (d : Vec3 ℝ), normalize rayDir = some d ∧
      raySphereIntersection rayStart rayDir sphereCenter sphereRad = some h ∧
      (0 ≤ h.tHit →
        0 ≤ rayDisc rayStart d sphereCenter sphereRad ∧
        h.pHit = rayStart.add (Vec3.smul h.tHit d) ∧
        length (h.pHit.sub sphereCenter) = sphereRad ∧
        h.nHit = some ⟨(h.pHit.x - sphereCenter.x) / sphereRad,
          (h.pHit.y - sphereCenter.y) / sphereRad, (h.pHit.z - sphereCenter.z) / sphereRad⟩ ∧
        (∀ n : Vec3 ℝ, h.nHit = some n → length n = 1) ∧
        h.tHit ≠ -1 ∧ h.nHit ≠ some ⟨777, 777, 777⟩) := by
  obtain ⟨d, hn⟩ : ∃ d : Vec3 ℝ, normalize rayDir = some d := ⟨_, normalize_of_ne hdir⟩
  have hd := dot_normalize hn
  by_cases hdisc : rayDisc rayStart d sphereCenter sphereRad < 0
  · refine ⟨_, d, hn, raySphereIntersection_miss hn hdisc, ?_⟩
    intro h
    norm_num [sentinelHit] at h
  · have hdisc' := not_lt.mp hdisc
    have hroot := (onSphere_iff rayStart d sphereCenter sphereRad _ hd).mpr
      (rayT_root rayStart d sphereCenter sphereRad hd hdisc')
    unfold OnSphere at hroot
    rw [length_sq] at hroot
    have hlen := length_eq_of_sq (le_of_lt hr) hroot
    have hne : (rayStart.add (Vec3.smul (rayT rayStart d sphereCenter sphereRad) d)).sub
        sphereCenter ≠ ⟨0, 0, 0⟩ := by
      intro h0
      rw [length_eq_zero.mpr h0] at hlen
      exact absurd hlen (ne_of_lt hr)
    have hnorm := normalize_of_ne hne
    rw [hlen] at hnorm
    refine ⟨_, d, hn, raySphereIntersection_hit hn hdisc', ?_⟩
    intro ht
    have ht' : 0 ≤ rayT rayStart d sphereCenter sphereRad := ht
    refine ⟨hdisc', rfl, hlen, hnorm, ?_, ?_, ?_⟩
    · intro n hnn
      exact length_of_dot_one (dot_normalize hnn)
    · show rayT rayStart d sphereCenter sphereRad ≠ -1
      intro h1
      rw [h1] at ht'
      norm_num at ht'
    · intro h777
      have h1 := dot_normalize h777
      norm_num [dot] at h1

/-- Witness for C7, amended: the ray from `(777, 777, 780)` along `-z` and the unit
sphere centred at `(777, 777, 776)`. -/
theorem raySphereIntersection_check_witness :
    ∃ (h : RayHit) (d : Vec3 ℝ), normalize ⟨0, 0, -1⟩ = some d ∧
      raySphereIntersection ⟨777, 777, 780⟩ ⟨0, 0, -1⟩ ⟨777, 777, 776⟩ 1 = some h ∧
      (0 ≤ h.tHit →
        0 ≤ rayDisc ⟨777, 777, 780⟩ d ⟨777, 777, 776⟩ 1 ∧
        h.pHit = (⟨777, 777, 780⟩ : Vec3 ℝ).add (Vec3.smul h.tHit d) ∧
        length (h.pHit.sub ⟨777, 777, 776⟩) = 1 ∧
        h.nHit = some ⟨(h.pHit.x - 777) / 1, (h.pHit.y - 777) / 1, (h.pHit.z - 776) / 1⟩ ∧
        (∀ n : Vec3 ℝ, h.nHit = some n → length n = 1) ∧
        h.tHit ≠ -1 ∧ h.nHit ≠ some ⟨777, 777, 777⟩) :=
  raySphereIntersection_check ⟨777, 777, 780⟩ ⟨0, 0, -1⟩ ⟨777, 777, 776⟩ 1 (by norm_num)
    (by simp)

theorem dot_comm {K : Type} [LinearOrderedField K] (a b : Vec3 K) : dot a b = dot b a := by
  simp only [dot]
  ring

/-! ### `orenNayarDiffuse` at zero roughness -/

/-- At zero roughness `A = 1` and `B = 0`; what is left is the quotient `B * s / t`,
which is undefined when `t = 0`, and defined with value `0` otherwise. -/
theorem orenNayarDiffuse_zero_roughness_eq (L V N : Vec3 ℝ) (albedo : ℝ) :
    orenNayarDiffuse L V N 0 albedo =
      if orenNayarT L V N = 0 then none
      else some (albedo * max 0 (dot N L) / 3.14159) := by
  have h1 : fdiv albedo ((0 : ℝ) * 0 + 0.13) = some (albedo / (0 * 0 + 0.13)) :=
    fdiv_of_ne _ (by norm_num)
  have h2 : fdiv (0.5 : ℝ) (0 * 0 + 0.33) = some (0.5 / (0 * 0 + 0.33)) :=
    fdiv_of_ne _ (by norm_num)
  have h3 : fdiv ((0.45 : ℝ) * (0 * 0)) (0 * 0 + 0.09) = some 0 := by
    rw [fdiv_of_ne _ (by norm_num)]
    norm_num
  by_cases ht : orenNayarT L V N = 0
  · rw [if_pos ht]
    unfold orenNayarT at ht
    simp only [orenNayarDiffuse, h1, h2, h3, Option.bind_eq_bind, Option.some_bind, ht,
      fdiv_zero, Option.none_bind]
  · rw [if_neg ht]
    unfold orenNayarT at ht
    simp only [orenNayarDiffuse, h1, h2, h3, Option.bind_eq_bind, Option.some_bind,
      fdiv_of_ne _ ht]
    rw [fdiv_of_ne _ (by norm_num), dot_comm N L]
    congr 1
    ring


/-- C8 as stated fails: with the light and the view direction both `(1, 0, 0)` and
the normal `(0, 1, 0)`, `s = 1`, `t = max(0, 0) = 0`, the routine divides `B * s` by
zero and its result is undefined, not the Lambertian value
`albedo * max(0, N.L) / 3.14159`. -/
theorem orenNayarDiffuse_lambert_counterexample :
    orenNayarDiffuse (⟨1, 0, 0⟩ : Vec3 ℝ) ⟨1, 0, 0⟩ ⟨0, 1, 0⟩ 0 1 = none ∧
      orenNayarDiffuse (⟨1, 0, 0⟩ : Vec3 ℝ) ⟨1, 0, 0⟩ ⟨0, 1, 0⟩ 0 1 ≠
        some (1 * max 0 (dot ⟨0, 1, 0⟩ ⟨1, 0, 0⟩) / 3.14159) := by
  have h : orenNayarDiffuse (⟨1, 0, 0⟩ : Vec3 ℝ) ⟨1, 0, 0⟩ ⟨0, 1, 0⟩ 0 1 = none := by
    rw [orenNayarDiffuse_zero_roughness_eq, if_pos]
    norm_num [orenNayarT, mix, step, dot]
  exact ⟨h, by rw [h]; simp⟩

/-- C8, amended: at zero roughness, for every light direction, view direction, normal
and albedo for which the divisor `t = mix(1, max(NdotL, NdotV), step(0, s))` is not
zero, `orenNayarDiffuse` is defined and equals `albedo * max(0, N.L) / 3.14159`; so
it is the same for every view direction with a non-zero `t`. -/
theorem orenNayarDiffuse_lambert (L V N : Vec3 ℝ) (albedo : ℝ) (ht : orenNayarT L V N ≠ 0) :
    orenNayarDiffuse L V N 0 albedo = some (albedo * max 0 (dot N L) / 3.14159) ∧
      ∀ V' : Vec3 ℝ, orenNayarT L V' N ≠ 0 →
        orenNayarDiffuse L V' N 0 albedo = orenNayarDiffuse L V N 0 albedo := by
  refine ⟨by rw [orenNayarDiffuse_zero_roughness_eq, if_neg ht], fun V' ht' => ?_⟩
  rw [orenNayarDiffuse_zero_roughness_eq, if_neg ht', orenNayarDiffuse_zero_roughness_eq,
    if_neg ht]

/-- Witness for C8, amended: light, view direction and normal all `(0, 0, 1)`. -/
theorem orenNayarDiffuse_lambert_witness :
    orenNayarDiffuse (⟨0, 0, 1⟩ : Vec3 ℝ) ⟨0, 0, 1⟩ ⟨0, 0, 1⟩ 0 (1 / 2) =
        some (1 / 2 * max 0 (dot ⟨0, 0, 1⟩ ⟨0, 0, 1⟩) / 3.14159) ∧
      ∀ V' : Vec3 ℝ, orenNayarT ⟨0, 0, 1⟩ V' ⟨0, 0, 1⟩ ≠ 0 →
        orenNayarDiffuse ⟨0, 0, 1⟩ V' ⟨0, 0, 1⟩ 0 (1 / 2) =
          orenNayarDiffuse ⟨0, 0, 1⟩ ⟨0, 0, 1⟩ ⟨0, 0, 1⟩ 0 (1 / 2) :=
  orenNayarDiffuse_lambert ⟨0, 0, 1⟩ ⟨0, 0, 1⟩ ⟨0, 0, 1⟩ (1 / 2) (by
    norm_num [orenNayarT, mix, step, dot])

/-! ### `sphericalTexCoords` -/

theorem glslAsin_of_abs_le {x : ℝ} (hx : |x| ≤ 1) : glslAsin x = some (Real.arcsin x) := by
  unfold glslAsin
  rw [if_neg]
  rw [abs_le] at hx
  rintro (h | h) <;> linarith

/-- The constants of `invMap` are the four-digit truncations of `1/(2π)` and `1/π`. -/
theorem invMap_approx :
    |(0.1591 : ℝ) - 1 / (2 * Real.pi)| < 1 / 10000 ∧ |(0.3183 : ℝ) - 1 / Real.pi| < 1 / 10000 := by
  have h1 := Real.pi_gt_d6
  have h2 := Real.pi_lt_d6
  have hpos : (0 : ℝ) < Real.pi := Real.pi_pos
  have ha : (0.15915 : ℝ) < 1 / (2 * Real.pi) := by
    rw [lt_div_iff₀ (by positivity)]
    nlinarith
  have hb : 1 / (2 * Real.pi) < (0.15916 : ℝ) := by
    rw [div_lt_iff₀ (by positivity)]
    nlinarith
  have hc : (0.3183 : ℝ) < 1 / Real.pi := by
    rw [lt_div_iff₀ (by positivity)]
    nlinarith
  have hd : 1 / Real.pi < (0.31831 : ℝ) := by
    rw [div_lt_iff₀ (by positivity)]
    nlinarith
  constructor <;> rw [abs_lt] <;> constructor <;> linarith

/-- The value of `sphericalTexCoords` wherever `asin` is defined. -/
theorem sphericalTexCoords_of_defined (v : Vec3 ℝ) (hy : |v.y| ≤ 1) :
    sphericalTexCoords v =
      some ⟨Complex.arg ⟨v.x, v.z⟩ * 0.1591 + 0.5, Real.arcsin v.y * 0.3183 + 0.5⟩ := by
  simp [sphericalTexCoords, glslAsin_of_abs_le hy, glslAtan2]

/-- C9, amended: for every `v` with `|v.y| <= 1`,
`sphericalTexCoords v = (atan2(v.z, v.x) * 0.1591 + 0.5, asin(v.y) * 0.3183 + 0.5)`:
the angles are scaled by the constants `0.1591` and `0.3183`, which differ from
`1/(2π)` and `1/π` by less than `1/10000`, and then biased by `0.5`. -/
theorem sphericalTexCoords_eq (v : Vec3 ℝ) (hy : |v.y| ≤ 1) :
    sphericalTexCoords v =
        some ⟨Complex.arg ⟨v.x, v.z⟩ * 0.1591 + 0.5, Real.arcsin v.y * 0.3183 + 0.5⟩ ∧
      |(0.1591 : ℝ) - 1 / (2 * Real.pi)| < 1 / 10000 ∧
      |(0.3183 : ℝ) - 1 / Real.pi| < 1 / 10000 :=
  ⟨sphericalTexCoords_of_defined v hy, invMap_approx⟩

theorem arg_neg_one_zero : Complex.arg ⟨-1, 0⟩ = Real.pi := by
  have h : (⟨-1, 0⟩ : ℂ) = -1 := by
    apply Complex.ext <;> simp
  rw [h, Complex.arg_neg_one]

/-- The value of `sphericalTexCoords` at `(-1, 0, 0)`. -/
theorem sphericalTexCoords_neg_x :
    sphericalTexCoords ⟨-1, 0, 0⟩ = some ⟨Real.pi * 0.1591 + 0.5, 0.5⟩ := by
  have harg := arg_neg_one_zero
  rw [sphericalTexCoords_of_defined ⟨-1, 0, 0⟩ (by norm_num), harg]
  simp

/-- C9 as stated fails: for `v = (-1, 0, 0)` the angle `atan2(0, -1)` is `π`, the
routine returns the first coordinate `π * 0.1591 + 0.5`, and this is not
`π * 1/(2π) + 0.5 = 1`. -/
theorem sphericalTexCoords_exact_counterexample :
    |(0 : ℝ)| ≤ 1 ∧
      sphericalTexCoords ⟨-1, 0, 0⟩ = some ⟨Real.pi * 0.1591 + 0.5, 0.5⟩ ∧
      sphericalTexCoords ⟨-1, 0, 0⟩ ≠
        some ⟨Complex.arg ⟨-1, 0⟩ * (1 / (2 * Real.pi)) + 0.5,
          Real.arcsin 0 * (1 / Real.pi) + 0.5⟩ := by
  have harg := arg_neg_one_zero
  refine ⟨by norm_num, sphericalTexCoords_neg_x, ?_⟩
  rw [sphericalTexCoords_neg_x, harg]
  intro h
  have hx := congrArg Vec2.x (Option.some.inj h)
  simp only at hx
  have hpi : Real.pi * (1 / (2 * Real.pi)) = 1 / 2 := by
    have hne : Real.pi ≠ 0 := ne_of_gt Real.pi_pos
    field_simp
    ring
  rw [hpi] at hx
  have h2 := Real.pi_lt_d6
  norm_num at hx
  nlinarith

/-- Witness for C9, amended: the direction `(-1, 0, 0)`. -/
theorem sphericalTexCoords_eq_witness :
    sphericalTexCoords ⟨-1, 0, 0⟩ =
        some ⟨Complex.arg ⟨-1, 0⟩ * 0.1591 + 0.5, Real.arcsin 0 * 0.3183 + 0.5⟩ ∧
      |(0.1591 : ℝ) - 1 / (2 * Real.pi)| < 1 / 10000 ∧
      |(0.3183 : ℝ) - 1 / Real.pi| < 1 / 10000 :=
  sphericalTexCoords_eq ⟨-1, 0, 0⟩ (by norm_num)

/-! ### `SurfaceTextureQuantity::setUVs` -/

/-- Whatever the two callees are: `standardizeVectorArray` sees the array and not the
mesh, so if `setUVs` returns normally for an array on one quantity, then on every
quantity, whatever its vertex count, `setUVs` with that array runs `createProgram`. -/
theorem setUVs_runs_createProgram {α ε : Type} (stdArr : α → Except ε (List UV))
    (build : SurfaceTextureQuantity → Option ε × SurfaceTextureQuantity) (uvs_ : α)
    (hacc : ∃ s0 : Scene, (setUVs stdArr build s0 uvs_).1 = none) (s : Scene) :
    (setUVs stdArr build s uvs_).2.createProgramCalls = s.createProgramCalls + 1 := by
  obtain ⟨s0, h0⟩ := hacc
  unfold setUVs at h0 ⊢
  cases hstd : stdArr uvs_ with
  | error e =>
    rw [hstd] at h0
    simp at h0
  | ok v =>
    simp only
    generalize build { s.quantity with uvs := v } = r
    obtain ⟨o, q⟩ := r
    cases o <;> rfl

/-- C10 as stated fails: on a quantity of a mesh with three vertices, `setUVs` with an
array of two UVs signals no error, replaces the stored `uvs`, rebuilds the program and
requests a redraw. -/
theorem setUVs_size_mismatch_counterexample :
    ([⟨1, 1⟩, ⟨0, 1⟩] : List UV).length ≠ 3 ∧
      setUVs standardizeVectorArray createProgram
          ⟨⟨3, [⟨0, 0⟩, ⟨1, 0⟩, ⟨0, 1⟩], some ⟨[⟨0, 0⟩, ⟨1, 0⟩, ⟨0, 1⟩]⟩⟩, 1, false⟩
          [⟨1, 1⟩, ⟨0, 1⟩] =
        (none, ⟨⟨3, [⟨1, 1⟩, ⟨0, 1⟩], some ⟨[⟨1, 1⟩, ⟨0, 1⟩]⟩⟩, 2, true⟩) :=
  ⟨by decide, rfl⟩

/-- C10, amended: `setUVs` does not compare the length of the array with the vertex
count of the parent mesh.  For every UV array, of any length, on which neither
`standardizeVectorArray` nor `createProgram` throws, `setUVs` signals no error, runs
`createProgram` once on the quantity that holds the standardized array, requests a
redraw, and (as `createProgram` leaves `uvs` alone) the stored `uvs` are the
standardized array. -/
theorem setUVs_unchecked {α ε : Type} (stdArr : α → Except ε (List UV))
    (build : SurfaceTextureQuantity → Option ε × SurfaceTextureQuantity)
    (s : Scene) (uvs_ : α) (v : List UV) (hstd : stdArr uvs_ = .ok v)
    (hbuild : (build { s.quantity with uvs := v }).1 = none)
    (hkeep : ∀ q : SurfaceTextureQuantity, (build q).2.uvs = q.uvs) :
    setUVs stdArr build s uvs_ =
        (none, ⟨(build { s.quantity with uvs := v }).2, s.createProgramCalls + 1, true⟩) ∧
      (setUVs stdArr build s uvs_).2.quantity.uvs = v := by
  have h : setUVs stdArr build s uvs_ =
      (none, ⟨(build { s.quantity with uvs := v }).2, s.createProgramCalls + 1, true⟩) := by
    unfold setUVs
    rw [hstd]
    simp only
    generalize build { s.quantity with uvs := v } = r at hbuild
    obtain ⟨o, q⟩ := r
    simp only at hbuild
    subst hbuild
    rfl
  refine ⟨h, ?_⟩
  rw [h]
  exact hkeep _

/-- Witness for C10, amended: the two modelled callees, a mesh with three vertices and
an array of two UVs. -/
theorem setUVs_unchecked_witness :
    setUVs standardizeVectorArray createProgram
          ⟨⟨3, [⟨0, 0⟩, ⟨1, 0⟩, ⟨0, 1⟩], some ⟨[⟨0, 0⟩, ⟨1, 0⟩, ⟨0, 1⟩]⟩⟩, 1, false⟩
          [⟨1, 1⟩, ⟨0, 1⟩] =
        (none, ⟨(createProgram ⟨3, [⟨1, 1⟩, ⟨0, 1⟩],
          some ⟨[⟨0, 0⟩, ⟨1, 0⟩, ⟨0, 1⟩]⟩⟩).2, 1 + 1, true⟩) ∧
      (setUVs standardizeVectorArray createProgram
          ⟨⟨3, [⟨0, 0⟩, ⟨1, 0⟩, ⟨0, 1⟩], some ⟨[⟨0, 0⟩, ⟨1, 0⟩, ⟨0, 1⟩]⟩⟩, 1, false⟩
          [⟨1, 1⟩, ⟨0, 1⟩]).2.quantity.uvs = [⟨1, 1⟩, ⟨0, 1⟩] :=
  setUVs_unchecked standardizeVectorArray createProgram
    ⟨⟨3, [⟨0, 0⟩, ⟨1, 0⟩, ⟨0, 1⟩], some ⟨[⟨0, 0⟩, ⟨1, 0⟩, ⟨0, 1⟩]⟩⟩, 1, false⟩
    [⟨1, 1⟩, ⟨0, 1⟩] [⟨1, 1⟩, ⟨0, 1⟩] rfl rfl (fun _ => rfl)

/-! ### `fragDepthFromView` is affine in the normalized device depth -/

/-- C13: for `clip = P * (p, 1)` with `clip.w ≠ 0` and `z = clip.z / clip.w`,
`fragDepthFromView` is defined and equals `((far - near) * z + near + far) / 2`; so
`z = -1` gives `near`, `z = 1` gives `far`, and when `near <= far` every `z` in
`[-1, 1]` gives a depth in `[near, far]`. -/
theorem fragDepthFromView_affine (P : Mat4 ℝ) (near far : ℝ) (p : Vec3 ℝ) (clip : Vec4 ℝ)
    (z : ℝ) (hclip : clip = Mat4.mulVec4 P (Vec4.ofVec3 p 1)) (hw : clip.w ≠ 0)
    (hz : z = clip.z / clip.w) :
    fragDepthFromView P ⟨near, far⟩ p = some (((far - near) * z + near + far) / 2) ∧
      (z = -1 → fragDepthFromView P ⟨near, far⟩ p = some near) ∧
      (z = 1 → fragDepthFromView P ⟨near, far⟩ p = some far) ∧
      (near ≤ far → -1 ≤ z → z ≤ 1 →
        near ≤ ((far - near) * z + near + far) / 2 ∧
          ((far - near) * z + near + far) / 2 ≤ far) := by
  have h : fragDepthFromView P ⟨near, far⟩ p =
      some (((far - near) * z + near + far) / 2) := by
    rw [fragDepthFromView_of_ne P ⟨near, far⟩ p (hclip ▸ hw), hz, hclip]
  refine ⟨h, ?_, ?_, ?_⟩
  · intro h1
    rw [h, h1]
    congr 1
    ring
  · intro h1
    rw [h, h1]
    congr 1
    ring
  · intro hnf hlo hhi
    constructor
    · nlinarith [mul_nonneg (sub_nonneg.mpr hnf) (by linarith : (0 : ℝ) ≤ z + 1)]
    · nlinarith [mul_nonneg (sub_nonneg.mpr hnf) (by linarith : (0 : ℝ) ≤ 1 - z)]

/-- Witness for C13: the projection of the witness for C2, the depth range `(0, 1)`
and the view point `(1, 2, -1)`, with `clip = (1, 2, 0, -1)` and `z = 0`. -/
theorem fragDepthFromView_affine_witness :
    fragDepthFromView !![1, 0, 0, 0; 0, 1, 0, 0; 0, 0, 1, 1; 0, 0, 1, 0] ⟨0, 1⟩ ⟨1, 2, -1⟩ =
        some ((((1 : ℝ) - 0) * 0 + 0 + 1) / 2) ∧
      ((0 : ℝ) = -1 →
        fragDepthFromView !![1, 0, 0, 0; 0, 1, 0, 0; 0, 0, 1, 1; 0, 0, 1, 0] ⟨0, 1⟩
          ⟨1, 2, -1⟩ = some (0 : ℝ)) ∧
      ((0 : ℝ) = 1 →
        fragDepthFromView !![1, 0, 0, 0; 0, 1, 0, 0; 0, 0, 1, 1; 0, 0, 1, 0] ⟨0, 1⟩
          ⟨1, 2, -1⟩ = some (1 : ℝ)) ∧
      ((0 : ℝ) ≤ 1 → (-1 : ℝ) ≤ 0 → (0 : ℝ) ≤ 1 →
        (0 : ℝ) ≤ ((1 - 0) * 0 + 0 + 1) / 2 ∧ (((1 : ℝ) - 0) * 0 + 0 + 1) / 2 ≤ 1) :=
  fragDepthFromView_affine !![1, 0, 0, 0; 0, 1, 0, 0; 0, 0, 1, 1; 0, 0, 1, 0] 0 1 ⟨1, 2, -1⟩
    ⟨1, 2, 0, -1⟩ 0
    (by
      ext
      all_goals simp [Mat4.mulVec4, Vec4.ofVec3, Matrix.vecHead, Matrix.vecTail])
    (by norm_num) (by norm_num)

/-! ### `tHit` is the smaller root -/

/-- C14 as stated fails on the binary32 program: for the ray from `(-20000, 0, 0)`
along `+x` and the unit sphere at the origin the discriminant is non-negative, the
returned `tHit` is `20000`, and the point at parameter `20000` is the centre of the
sphere, so `20000` does not satisfy the equation (the smaller root is `19999`). -/
theorem raySphereIntersection_smaller_root_counterexample :
    (⟨1, 0, 0⟩ : Vec3 ℝ) ≠ ⟨0, 0, 0⟩ ∧
      (∀ d : Vec3 ℝ, normalize ⟨1, 0, 0⟩ = some d →
        0 ≤ rayDisc ⟨-20000, 0, 0⟩ d ⟨0, 0, 0⟩ 1) ∧
      raySphereIntersectionF32 ⟨F32.num (-20000), F32.zero false, F32.zero false⟩
          ⟨F32.num 1, F32.zero false, F32.zero false⟩
          ⟨F32.zero false, F32.zero false, F32.zero false⟩ (F32.num 1) =
        ⟨F32.num 20000, ⟨F32.zero false, F32.zero false, F32.zero false⟩,
          ⟨F32.nan, F32.nan, F32.nan⟩⟩ ∧
      ∀ d : Vec3 ℝ, normalize ⟨1, 0, 0⟩ = some d →
        length (((⟨-20000, 0, 0⟩ : Vec3 ℝ).add (Vec3.smul 20000 d)).sub ⟨0, 0, 0⟩) ^ 2 ≠
          (1 : ℝ) ^ 2 :=
  ⟨by simp, rayDisc_far_nonneg, raySphereIntersectionF32_far, far_not_root⟩

/-- C14, amended: over the reals, for a non-zero `rayDir` and a non-negative
discriminant, with `d = normalize(rayDir)`, the returned `tHit` satisfies
`|rayStart + tHit * d - sphereCenter|^2 = radius^2`, and every real `t` that satisfies
this equation has `tHit <= t`. -/
theorem raySphereIntersection_smaller_root (rayStart rayDir sphereCenter : Vec3 ℝ)
    (sphereRad : ℝ) (hdir : rayDir ≠ ⟨0, 0, 0⟩)
    (hdisc : ∀ d : Vec3 ℝ, normalize rayDir = some d →
      0 ≤ rayDisc rayStart d sphereCenter sphereRad) :
    ∃ (h : RayHit) (d : Vec3 ℝ), normalize rayDir = some d ∧
      raySphereIntersection rayStart rayDir sphereCenter sphereRad = some h ∧
      length ((rayStart.add (Vec3.smul h.tHit d)).sub sphereCenter) ^ 2 = sphereRad ^ 2 ∧
      ∀ t : ℝ,
        length ((rayStart.add (Vec3.smul t d)).sub sphereCenter) ^ 2 = sphereRad ^ 2 →
          h.tHit ≤ t := by
  obtain ⟨d, hn⟩ : ∃ d : Vec3 ℝ, normalize rayDir = some d := ⟨_, normalize_of_ne hdir⟩
  have hd := dot_normalize hn
  refine ⟨_, d, hn, raySphereIntersection_hit hn (hdisc d hn), ?_, ?_⟩
  · exact (onSphere_iff rayStart d sphereCenter sphereRad _ hd).mpr
      (rayT_root rayStart d sphereCenter sphereRad hd (hdisc d hn))
  · intro t ht
    exact rayT_le_root rayStart d sphereCenter sphereRad t hd
      ((onSphere_iff rayStart d sphereCenter sphereRad t hd).mp ht)

/-- Witness for C14, amended: the ray from `(-5, 0, 0)` along `+x` and the unit sphere at the
origin, where the discriminant is `4`. -/
theorem raySphereIntersection_smaller_root_witness :
    ∃ (h : RayHit) (d : Vec3 ℝ), normalize ⟨1, 0, 0⟩ = some d ∧
      raySphereIntersection ⟨-5, 0, 0⟩ ⟨1, 0, 0⟩ ⟨0, 0, 0⟩ 1 = some h ∧
      length (((⟨-5, 0, 0⟩ : Vec3 ℝ).add (Vec3.smul h.tHit d)).sub ⟨0, 0, 0⟩) ^ 2 =
        (1 : ℝ) ^ 2 ∧
      ∀ t : ℝ,
        length (((⟨-5, 0, 0⟩ : Vec3 ℝ).add (Vec3.smul t d)).sub ⟨0, 0, 0⟩) ^ 2 =
            (1 : ℝ) ^ 2 →
          h.tHit ≤ t :=
  raySphereIntersection_smaller_root ⟨-5, 0, 0⟩ ⟨1, 0, 0⟩ ⟨0, 0, 0⟩ 1 (by simp) (by
    intro d hd
    rw [normalize_unit_x] at hd
    rw [← Option.some.inj hd]
    simp [rayDisc, rayB, rayC, dot, Vec3.sub]
    norm_num)

/-! ### `fragmentViewPosition` does not depend on `fragCoord.w` -/

theorem fragmentViewPosition_eq_bind {K : Type} [LinearOrderedField K] (viewport : Vec4 K)
    (depthRange : Vec2 K) (invProjMat : Mat4 K) (fragCoord : Vec4 K) :
    fragmentViewPosition viewport depthRange invProjMat fragCoord =
      (fragmentEyePos viewport depthRange invProjMat fragCoord).bind
        fun eyePos => Vec3.divScalar eyePos.xyz eyePos.w := by
  simp only [fragmentViewPosition, fragmentEyePos, Option.bind_eq_bind, Option.bind_assoc,
    Option.pure_def, Option.some_bind]

/-- Scaling the argument of the matrix-vector product by `1 / w` scales the result. -/
theorem mulVec4_div {K : Type} [LinearOrderedField K] (M : Mat4 K) (v : Vec4 K) (w : K) :
    Mat4.mulVec4 M ⟨v.x / w, v.y / w, v.z / w, v.w / w⟩ =
      ⟨(Mat4.mulVec4 M v).x / w, (Mat4.mulVec4 M v).y / w, (Mat4.mulVec4 M v).z / w,
        (Mat4.mulVec4 M v).w / w⟩ := by
  ext <;> simp only [Mat4.mulVec4] <;> ring

/-- The common factor `1 / w` cancels in the homogeneous divide. -/
theorem divScalar_div {K : Type} [LinearOrderedField K] (v : Vec3 K) (e w : K) (hw : w ≠ 0) :
    Vec3.divScalar ⟨v.x / w, v.y / w, v.z / w⟩ (e / w) = Vec3.divScalar v e := by
  by_cases he : e = 0
  · simp [Vec3.divScalar, fdiv, he]
  · have hew : e / w ≠ 0 := div_ne_zero he hw
    rw [vec3_divScalar_of_ne _ hew, vec3_divScalar_of_ne _ he]
    congr 1
    ext <;> simp only <;> field_simp

/-- With a non-zero `fragCoord.w`, the local `eyePos` is the one for `fragCoord.w = 1`
divided by `fragCoord.w`. -/
theorem fragmentEyePos_of_w_ne {K : Type} [LinearOrderedField K] (viewport : Vec4 K)
    (depthRange : Vec2 K) (invProjMat : Mat4 K) (x y z w : K) (hw : w ≠ 0) :
    fragmentEyePos viewport depthRange invProjMat ⟨x, y, z, w⟩ =
      (fragmentEyePos viewport depthRange invProjMat ⟨x, y, z, 1⟩).map
        fun e => ⟨e.x / w, e.y / w, e.z / w, e.w / w⟩ := by
  by_cases hvz : viewport.z = 0
  · simp [fragmentEyePos, fdiv, hvz]
  by_cases hvw : viewport.w = 0
  · simp [fragmentEyePos, fdiv, hvw]
  by_cases hdr : depthRange.y - depthRange.x = 0
  · simp [fragmentEyePos, fdiv, hdr]
  simp only [fragmentEyePos, fdiv_of_ne _ hvz, fdiv_of_ne _ hvw, fdiv_of_ne _ hdr,
    vec4_divScalar_of_ne _ hw, vec4_divScalar_of_ne _ (one_ne_zero : (1 : K) ≠ 0),
    Option.bind_eq_bind, Option.some_bind, Option.pure_def, Option.map_some', div_one]
  exact congrArg some (mulVec4_div invProjMat
    ⟨(2 * x - 2 * viewport.x) / viewport.z - 1, (2 * y - 2 * viewport.y) / viewport.w - 1,
      (2 * z - depthRange.x - depthRange.y) / (depthRange.y - depthRange.x), 1⟩ w)

theorem fragmentViewPosition_of_w_ne {K : Type} [LinearOrderedField K] (viewport : Vec4 K)
    (depthRange : Vec2 K) (invProjMat : Mat4 K) (x y z w : K) (hw : w ≠ 0) :
    fragmentViewPosition viewport depthRange invProjMat ⟨x, y, z, w⟩ =
      fragmentViewPosition viewport depthRange invProjMat ⟨x, y, z, 1⟩ := by
  rw [fragmentViewPosition_eq_bind, fragmentViewPosition_eq_bind,
    fragmentEyePos_of_w_ne viewport depthRange invProjMat x y z w hw]
  cases fragmentEyePos viewport depthRange invProjMat ⟨x, y, z, 1⟩ with
  | none => rfl
  | some e =>
    simp only [Option.map_some', Option.some_bind, Vec4.xyz]
    exact divScalar_div ⟨e.x, e.y, e.z⟩ e.w w hw

/-- C15: for every viewport, depth range, `invProjMat`, `fragCoord.xyz` and every two
non-zero values `w1`, `w2` of `fragCoord.w`, the two results of `fragmentViewPosition`
are equal; and whenever the reconstructed eye-space `w` component is non-zero, both
are defined, with the same value. -/
theorem fragmentViewPosition_w_independent (viewport : Vec4 ℝ) (depthRange : Vec2 ℝ)
    (invProjMat : Mat4 ℝ) (x y z w1 w2 : ℝ) (hw1 : w1 ≠ 0) (hw2 : w2 ≠ 0) :
    fragmentViewPosition viewport depthRange invProjMat ⟨x, y, z, w1⟩ =
        fragmentViewPosition viewport depthRange invProjMat ⟨x, y, z, w2⟩ ∧
      ∀ eyePos : Vec4 ℝ,
        fragmentEyePos viewport depthRange invProjMat ⟨x, y, z, w1⟩ = some eyePos →
        eyePos.w ≠ 0 →
        ∃ r : Vec3 ℝ,
          fragmentViewPosition viewport depthRange invProjMat ⟨x, y, z, w1⟩ = some r ∧
          fragmentViewPosition viewport depthRange invProjMat ⟨x, y, z, w2⟩ = some r := by
  have heq : fragmentViewPosition viewport depthRange invProjMat ⟨x, y, z, w1⟩ =
      fragmentViewPosition viewport depthRange invProjMat ⟨x, y, z, w2⟩ := by
    rw [fragmentViewPosition_of_w_ne viewport depthRange invProjMat x y z w1 hw1,
      fragmentViewPosition_of_w_ne viewport depthRange invProjMat x y z w2 hw2]
  refine ⟨heq, ?_⟩
  intro eyePos he hne
  refine ⟨⟨eyePos.x / eyePos.w, eyePos.y / eyePos.w, eyePos.z / eyePos.w⟩, ?_, ?_⟩
  · rw [fragmentViewPosition_eq_bind, he, Option.some_bind, vec3_divScalar_of_ne _ hne]
    rfl
  · rw [← heq, fragmentViewPosition_eq_bind, he, Option.some_bind,
      vec3_divScalar_of_ne _ hne]
    rfl

/-- Witness for C15: the identity as `invProjMat`, the viewport `(0, 0, 2, 2)`, the depth
range `(0, 1)`, `fragCoord.xyz = (1, 1, 1/2)` and the two values `2` and `5` of
`fragCoord.w`. -/
theorem fragmentViewPosition_w_independent_witness :
    fragmentViewPosition ⟨0, 0, 2, 2⟩ ⟨0, 1⟩ (1 : Mat4 ℝ) ⟨1, 1, 1 / 2, 2⟩ =
        fragmentViewPosition ⟨0, 0, 2, 2⟩ ⟨0, 1⟩ (1 : Mat4 ℝ) ⟨1, 1, 1 / 2, 5⟩ ∧
      ∀ eyePos : Vec4 ℝ,
        fragmentEyePos ⟨0, 0, 2, 2⟩ ⟨0, 1⟩ (1 : Mat4 ℝ) ⟨1, 1, 1 / 2, 2⟩ = some eyePos →
        eyePos.w ≠ 0 →
        ∃ r : Vec3 ℝ,
          fragmentViewPosition ⟨0, 0, 2, 2⟩ ⟨0, 1⟩ (1 : Mat4 ℝ) ⟨1, 1, 1 / 2, 2⟩ = some r ∧
          fragmentViewPosition ⟨0, 0, 2, 2⟩ ⟨0, 1⟩ (1 : Mat4 ℝ) ⟨1, 1, 1 / 2, 5⟩ = some r :=
  fragmentViewPosition_w_independent ⟨0, 0, 2, 2⟩ ⟨0, 1⟩ 1 1 1 (1 / 2) 2 5 (by norm_num)
    (by norm_num)

/-! ### The range of `sphericalTexCoords` -/

/-- Any angle in `[-π, π]` scaled by `0.1591`, and any angle in `[-π/2, π/2]` scaled by
`0.3183`, lands in `[0, 1]` after the bias `0.5`. -/
theorem invMap_range (a b : ℝ) (ha : -Real.pi ≤ a ∧ a ≤ Real.pi)
    (hb : -(Real.pi / 2) ≤ b ∧ b ≤ Real.pi / 2) :
    (0 ≤ a * 0.1591 + 0.5 ∧ a * 0.1591 + 0.5 ≤ 1) ∧
      (0 ≤ b * 0.3183 + 0.5 ∧ b * 0.3183 + 0.5 ≤ 1) := by
  have h := Real.pi_lt_d6
  obtain ⟨ha1, ha2⟩ := ha
  obtain ⟨hb1, hb2⟩ := hb
  refine ⟨⟨?_, ?_⟩, ⟨?_, ?_⟩⟩ <;> norm_num <;> nlinarith

/-- C16: for every vector `v` with `|v.y| <= 1`, `sphericalTexCoords v` is defined and
both of its components lie in `[0, 1]`; with the constants `0.1591` and `0.3183` of the
code the bounds hold for every angle in `[-π, π]` and in `[-π/2, π/2]`, so for whatever
`atan` and `asin` return in these ranges. -/
theorem sphericalTexCoords_range (v : Vec3 ℝ) (hy : |v.y| ≤ 1) :
    (∃ uv : Vec2 ℝ, sphericalTexCoords v = some uv ∧
        (0 ≤ uv.x ∧ uv.x ≤ 1) ∧ (0 ≤ uv.y ∧ uv.y ≤ 1)) ∧
      ∀ a b : ℝ, -Real.pi ≤ a ∧ a ≤ Real.pi → -(Real.pi / 2) ≤ b ∧ b ≤ Real.pi / 2 →
        (0 ≤ a * 0.1591 + 0.5 ∧ a * 0.1591 + 0.5 ≤ 1) ∧
          (0 ≤ b * 0.3183 + 0.5 ∧ b * 0.3183 + 0.5 ≤ 1) := by
  refine ⟨⟨_, sphericalTexCoords_of_defined v hy, ?_⟩, invMap_range⟩
  exact invMap_range _ _
    ⟨le_of_lt (Complex.neg_pi_lt_arg _), Complex.arg_le_pi _⟩
    ⟨Real.neg_pi_div_two_le_arcsin _, Real.arcsin_le_pi_div_two _⟩

/-- Witness for C16: the pole `(0, 1, 0)`, where the routine evaluates `atan(0, 0)`. -/
theorem sphericalTexCoords_range_witness :
    (∃ uv : Vec2 ℝ, sphericalTexCoords ⟨0, 1, 0⟩ = some uv ∧
        (0 ≤ uv.x ∧ uv.x ≤ 1) ∧ (0 ≤ uv.y ∧ uv.y ≤ 1)) ∧
      ∀ a b : ℝ, -Real.pi ≤ a ∧ a ≤ Real.pi → -(Real.pi / 2) ≤ b ∧ b ≤ Real.pi / 2 →
        (0 ≤ a * 0.1591 + 0.5 ∧ a * 0.1591 + 0.5 ≤ 1) ∧
          (0 ≤ b * 0.3183 + 0.5 ∧ b * 0.3183 + 0.5 ≤ 1) :=
  sphericalTexCoords_range ⟨0, 1, 0⟩ (by norm_num)

/-! ### `fresnel` -/

/-- What `setUVs` does once `standardizeVectorArray` has returned `v` and
`createProgram` returns normally, whatever `createProgram` is. -/
theorem setUVs_of_ok {α ε : Type} (stdArr : α → Except ε (List UV))
    (build : SurfaceTextureQuantity → Option ε × SurfaceTextureQuantity)
    (s : Scene) (uvs_ : α) (v : List UV) (hstd : stdArr uvs_ = .ok v)
    (hbuild : (build { s.quantity with uvs := v }).1 = none) :
    setUVs stdArr build s uvs_ =
      (none, ⟨(build { s.quantity with uvs := v }).2, s.createProgramCalls + 1, true⟩) := by
  unfold setUVs
  rw [hstd]
  simp only
  generalize build { s.quantity with uvs := v } = r at hbuild
  obtain ⟨o, q⟩ := r
  simp only at hbuild
  subst hbuild
  rfl

/-- A draw with a program in place issues the draw call with it and changes nothing. -/
theorem draw_of_built (s : Scene) (prog : ShaderProgram)
    (h : s.quantity.program = some prog) : draw s = (some prog, s) := by
  unfold draw
  rw [h]

/-- A draw with a null program calls `createProgram` once and draws with the program
built from the current `uvs`. -/
theorem draw_of_stale (s : Scene) (h : s.quantity.program = none) :
    draw s = (some ⟨s.quantity.uvs⟩,
      ⟨⟨s.quantity.nVertices, s.quantity.uvs, some ⟨s.quantity.uvs⟩⟩,
        s.createProgramCalls + 1, s.redrawRequested⟩) := by
  unfold draw
  rw [h]
  rfl

theorem iterate_draw_of_built (s : Scene) (prog : ShaderProgram)
    (h : s.quantity.program = some prog) (n : ℕ) :
    (fun t : Scene => (draw t).2)^[n] s = s := by
  apply Function.iterate_fixed
  show (draw s).2 = s
  rw [draw_of_built s prog h]

theorem refresh_refresh (s : Scene) : refresh (refresh s) = refresh s := rfl

theorem iterate_refresh_succ (s : Scene) (n : ℕ) : refresh^[n + 1] s = refresh s := by
  induction n with
  | zero => rfl
  | succ k ih => rw [Function.iterate_succ_apply', ih, refresh_refresh]

/-- C11: whenever `standardizeVectorArray` accepts the input and returns `v`, `setUVs`
stores `v`, then runs `createProgram` on the quantity that holds `v` (for every
`createProgram` that returns normally), then requests a redraw and returns normally;
with `createProgram` building from the current data, the program held afterwards is
built from `v`, and every later `draw` uses that program and does not rebuild. -/
theorem setUVs_rebuilds {α : Type} (stdArr : α → Except Failure (List UV)) (s : Scene)
    (uvs_ : α) (v : List UV) (hstd : stdArr uvs_ = .ok v) :
    (∀ build : SurfaceTextureQuantity → Option Failure × SurfaceTextureQuantity,
        (build { s.quantity with uvs := v }).1 = none →
        setUVs stdArr build s uvs_ =
          (none, ⟨(build { s.quantity with uvs := v }).2, s.createProgramCalls + 1, true⟩)) ∧
      setUVs stdArr createProgram s uvs_ =
        (none, ⟨⟨s.quantity.nVertices, v, some ⟨v⟩⟩, s.createProgramCalls + 1, true⟩) ∧
      ∀ n : ℕ,
        draw ((fun t : Scene => (draw t).2)^[n] (setUVs stdArr createProgram s uvs_).2) =
          (some ⟨v⟩, ⟨⟨s.quantity.nVertices, v, some ⟨v⟩⟩, s.createProgramCalls + 1, true⟩) := by
  have h : setUVs stdArr createProgram s uvs_ =
      (none, ⟨⟨s.quantity.nVertices, v, some ⟨v⟩⟩, s.createProgramCalls + 1, true⟩) :=
    setUVs_of_ok stdArr createProgram s uvs_ v hstd rfl
  refine ⟨fun build hb => setUVs_of_ok stdArr build s uvs_ v hstd hb, h, fun n => ?_⟩
  rw [h]
  simp only
  rw [iterate_draw_of_built _ ⟨v⟩ rfl n, draw_of_built _ ⟨v⟩ rfl]

/-- Witness for C11: a quantity on a mesh with three vertices holding three UVs and a
program built from them, and three new UVs. -/
theorem setUVs_rebuilds_witness :
    (∀ build : SurfaceTextureQuantity → Option Failure × SurfaceTextureQuantity,
        (build { (⟨3, [⟨0, 0⟩, ⟨1, 0⟩, ⟨0, 1⟩], some ⟨[⟨0, 0⟩, ⟨1, 0⟩, ⟨0, 1⟩]⟩⟩ :
            SurfaceTextureQuantity) with uvs := [⟨1, 1⟩, ⟨1, 0⟩, ⟨0, 1⟩] }).1 = none →
        setUVs standardizeVectorArray build
            ⟨⟨3, [⟨0, 0⟩, ⟨1, 0⟩, ⟨0, 1⟩], some ⟨[⟨0, 0⟩, ⟨1, 0⟩, ⟨0, 1⟩]⟩⟩, 1, false⟩
            [⟨1, 1⟩, ⟨1, 0⟩, ⟨0, 1⟩] =
          (none, ⟨(build { (⟨3, [⟨0, 0⟩, ⟨1, 0⟩, ⟨0, 1⟩],
              some ⟨[⟨0, 0⟩, ⟨1, 0⟩, ⟨0, 1⟩]⟩⟩ : SurfaceTextureQuantity) with
              uvs := [⟨1, 1⟩, ⟨1, 0⟩, ⟨0, 1⟩] }).2, 1 + 1, true⟩)) ∧
      setUVs standardizeVectorArray createProgram
          ⟨⟨3, [⟨0, 0⟩, ⟨1, 0⟩, ⟨0, 1⟩], some ⟨[⟨0, 0⟩, ⟨1, 0⟩, ⟨0, 1⟩]⟩⟩, 1, false⟩
          [⟨1, 1⟩, ⟨1, 0⟩, ⟨0, 1⟩] =
        (none, ⟨⟨3, [⟨1, 1⟩, ⟨1, 0⟩, ⟨0, 1⟩], some ⟨[⟨1, 1⟩, ⟨1, 0⟩, ⟨0, 1⟩]⟩⟩,
          1 + 1, true⟩) ∧
      ∀ n : ℕ,
        draw ((fun t : Scene => (draw t).2)^[n]
          (setUVs standardizeVectorArray createProgram
            ⟨⟨3, [⟨0, 0⟩, ⟨1, 0⟩, ⟨0, 1⟩], some ⟨[⟨0, 0⟩, ⟨1, 0⟩, ⟨0, 1⟩]⟩⟩, 1, false⟩
            [⟨1, 1⟩, ⟨1, 0⟩, ⟨0, 1⟩]).2) =
          (some ⟨[⟨1, 1⟩, ⟨1, 0⟩, ⟨0, 1⟩]⟩,
            ⟨⟨3, [⟨1, 1⟩, ⟨1, 0⟩, ⟨0, 1⟩], some ⟨[⟨1, 1⟩, ⟨1, 0⟩, ⟨0, 1⟩]⟩⟩, 1 + 1, true⟩) :=
  setUVs_rebuilds standardizeVectorArray
    ⟨⟨3, [⟨0, 0⟩, ⟨1, 0⟩, ⟨0, 1⟩], some ⟨[⟨0, 0⟩, ⟨1, 0⟩, ⟨0, 1⟩]⟩⟩, 1, false⟩
    [⟨1, 1⟩, ⟨1, 0⟩, ⟨0, 1⟩] [⟨1, 1⟩, ⟨1, 0⟩, ⟨0, 1⟩] rfl

/-- C12: for every state, `refresh` followed by `refresh` leaves the same state as a
single `refresh`, `refresh` leaves `uvs` unchanged, and after one or more consecutive
calls to `refresh` the next `draw` calls `createProgram` exactly once (drawing with a
program built from the unchanged `uvs`), while the `draw` after that does not call
it again. -/
theorem refresh_then_draw (s : Scene) :
    refresh (refresh s) = refresh s ∧
      (refresh s).quantity.uvs = s.quantity.uvs ∧
      ∀ n : ℕ,
        (draw (refresh^[n + 1] s)).2.createProgramCalls = s.createProgramCalls + 1 ∧
        (draw (refresh^[n + 1] s)).1 = some ⟨s.quantity.uvs⟩ ∧
        (draw (draw (refresh^[n + 1] s)).2).2.createProgramCalls =
          s.createProgramCalls + 1 := by
  refine ⟨rfl, rfl, fun n => ?_⟩
  rw [iterate_refresh_succ, draw_of_stale (refresh s) rfl]
  refine ⟨rfl, rfl, ?_⟩
  rw [draw_of_built _ ⟨s.quantity.uvs⟩ rfl]
  rfl

end Polyscope
